import Mathlib

/-!
Shallow embedding of the DORA metrics aggregation engine of this repository
(`src/metrics.ts` and `src/resolvers.ts`), together with theorems settling
the specification claims.

Modelling conventions:
* JS numbers are modelled as `ℚ`; the non-finite values (`NaN`, `Infinity`)
  that can arise from dividing by zero are modelled as `none : Option ℚ`.
* JS objects used as string-keyed records are association lists preserving
  insertion order (which is how string-keyed JS objects iterate).
* Timestamps (`Date.getTime()`) are `ℤ` milliseconds; the date values handled
  by the bucketizer are `ℤ` day numbers at UTC-day resolution, with day `0`
  chosen on a Monday so that luxon's `startOf("week")` is day-number rounding.
* Storage (`prisma`) is a pure value: the activity tables are read-only lists,
  the `score` table is a list of rows threaded through the orchestrator, and
  every query or write is recorded in an event log.
-/

namespace Dora

/-- JS truthiness fallback `x || d` where `x` is a number read from an object:
`none` models a missing key (`undefined`), and `some 0` is falsy. -/
def jsOr (x : Option ℚ) (d : ℚ) : ℚ :=
  match x with
  | none => d
  | some v => if v = 0 then d else v

/-- JS `x || d` for a plain number `x` (`0` is falsy). -/
def jsOrN (x d : ℚ) : ℚ := if x = 0 then d else x

/-- JS division `a / b`; `none` models the non-finite result (`NaN` or
`Infinity`) produced when `b = 0`. -/
def jsDiv (a b : ℚ) : Option ℚ := if b = 0 then none else some (a / b)

/-- JS `Math.round`: round half toward positive infinity
(`Rat.floor` is the floor function on `ℚ`). -/
def jsRound (q : ℚ) : ℚ := (((q + 1/2).floor : ℤ) : ℚ)

/-- The `Math.round(x * 100) / 100` two-decimal rounding pattern used by the
lead-time and restore-time reducers. -/
def round2 (q : ℚ) : ℚ := jsRound (q * 100) / 100

/-- A JS object used as a string-keyed record, insertion order preserved. -/
abbrev Obj (α : Type) := List (String × α)

/-- Read `r[k]` (`none` when the key is absent). -/
def getR {α : Type} (r : Obj α) (k : String) : Option α :=
  (r.find? (fun p => p.1 == k)).map (·.2)

/-- Assignment `r[k] = v`: overwrite in place, or append a new key. -/
def setR {α : Type} : Obj α → String → α → Obj α
  | [], k, v => [(k, v)]
  | p :: ps, k, v => if p.1 == k then (k, v) :: ps else p :: setR ps k v

/-- `Object.keys r` in insertion order. -/
def keysR {α : Type} (r : Obj α) : List String := r.map (·.1)

/-- The accumulation idiom `r[k] = (r[k] || 0) + v`. -/
def incr (r : Obj ℚ) (k : String) (v : ℚ) : Obj ℚ :=
  setR r k (jsOr (getR r k) 0 + v)

/-- Read `r[u] || 0` from a record whose stored values may be `NaN`
(`NaN` is falsy in JS, so it also falls back to the default). -/
def jsOrO (x : Option (Option ℚ)) (d : ℚ) : ℚ :=
  match x with
  | some (some v) => if v = 0 then d else v
  | _ => d

/-! ### Activity records and the read-only activity store (`prisma` tables). -/

/-- A row of the `releases` table (fields the reducers read). -/
structure Release where
  org : String
  repo : String
  user : String
  timestamp : ℤ
deriving Repr, DecidableEq

/-- A row of the `prs` table; `createdAt`/`mergedAt` are the
`pr.createdAt` / `pr.mergedAt` payload timestamps in milliseconds. -/
structure PullReq where
  org : String
  repo : String
  user : String
  timestamp : ℤ
  createdAt : ℤ
  mergedAt : Option ℤ
deriving Repr, DecidableEq

/-- A row of the `issues` table; `labels` holds the label names of the
`issue.labels` payload. -/
structure Issue where
  org : String
  repo : String
  user : String
  timestamp : ℤ
  labels : List String
  createdAt : ℤ
  closedAt : Option ℤ
deriving Repr, DecidableEq

/-- The ingested activity tables plus the `repos` table
(list of `(owner, repo)` pairs). -/
structure DB where
  releases : List Release
  prs : List PullReq
  issues : List Issue
  repos : List (String × String)
deriving Repr, DecidableEq

/-- The `timestamp: { gte: startDate, lte: endDate }` filter. -/
def inWindow (t s e : ℤ) : Bool := decide (s ≤ t) && decide (t ≤ e)

/-- `db.releases.findMany({ where: { org, timestamp: { gte, lte } } })` —
note: no repository filter. -/
def findReleases (db : DB) (owner : String) (s e : ℤ) : List Release :=
  db.releases.filter (fun r => r.org == owner && inWindow r.timestamp s e)

/-- `db.prs.findMany({ where: { org, repo, timestamp: { gte, lte } } })`. -/
def findPullRequests (db : DB) (owner repo : String) (s e : ℤ) : List PullReq :=
  db.prs.filter (fun p => p.org == owner && p.repo == repo && inWindow p.timestamp s e)

/-- `db.issues.findMany({ where: { org, repo, timestamp: { gte, lte } } })`. -/
def findIssues (db : DB) (owner repo : String) (s e : ℤ) : List Issue :=
  db.issues.filter (fun i => i.org == owner && i.repo == repo && inWindow i.timestamp s e)

/-- `db.repos.findMany({ where: { owner } }).map(r => r.repo)`. -/
def listRepositories (db : DB) (owner : String) : List String :=
  (db.repos.filter (fun p => p.1 == owner)).map (·.2)

/-! ### The four metric reducers. -/

/-- Result of `calculateDeploymentFrequency`. -/
structure DeploymentData where
  userDeployments : Obj ℚ
  orgDeployment : ℚ
  repoDeployments : Obj ℚ
deriving Repr, DecidableEq

/-- Body of the `releaseDocs.forEach` loop. -/
def deploymentStep (acc : DeploymentData) (r : Release) : DeploymentData :=
  { userDeployments := incr acc.userDeployments r.user 1
    orgDeployment := acc.orgDeployment + 1
    repoDeployments := incr acc.repoDeployments r.repo 1 }

/-- `calculateDeploymentFrequency(owner, startDate, endDate)`: counts
releases of the whole organization in the window (it takes no repository
argument and queries with no repository filter). -/
def calculateDeploymentFrequency (db : DB) (owner : String) (s e : ℤ) : DeploymentData :=
  (findReleases db owner s e).foldl deploymentStep ⟨[], 0, []⟩

/-- `averages[key] = metrics[key] / (count[key] || 1)` over the keys of
`metrics`, in order. -/
def calculateAverage (metrics count : Obj ℚ) : Obj ℚ :=
  metrics.map (fun p => (p.1, p.2 / jsOr (getR count p.1) 1))

/-- Mutable state of `calculateLeadTimeForChanges` before averaging. -/
structure LeadAcc where
  userLeadTime : Obj ℚ
  userPRCount : Obj ℚ
  orgLeadTime : ℚ
  orgPRCount : ℚ
  repoLeadTime : Obj ℚ
  repoPRCount : Obj ℚ
deriving Repr, DecidableEq

/-- The lead time the source computes for a merged PR, transcribed with the
source's parenthesization:
`Math.round((mergedTime - firstCommitTime / (1000*60*60)) * 100) / 100`,
where `firstCommitTime` is `new Date(pr.createdAt).getTime()`. -/
def sourceLeadTime (createdAt mergedAt : ℤ) : ℚ :=
  round2 ((mergedAt : ℚ) - (createdAt : ℚ) / (1000 * 60 * 60))

/-- Body of the inner PR loop: only PRs with `pr.mergedAt` contribute. -/
def leadStepPR (repo : String) (acc : LeadAcc) (pr : PullReq) : LeadAcc :=
  match pr.mergedAt with
  | none => acc
  | some m =>
    let lead := sourceLeadTime pr.createdAt m
    { userLeadTime := incr acc.userLeadTime pr.user lead
      userPRCount := incr acc.userPRCount pr.user 1
      orgLeadTime := acc.orgLeadTime + lead
      orgPRCount := acc.orgPRCount + 1
      repoLeadTime := incr acc.repoLeadTime repo lead
      repoPRCount := incr acc.repoPRCount repo 1 }

/-- Result of `calculateLeadTimeForChanges` (already averaged). -/
structure LeadData where
  userLeadTime : Obj ℚ
  orgLeadTime : ℚ
  repoLeadTime : Obj ℚ
deriving Repr, DecidableEq

/-- `calculateLeadTimeForChanges(owner, repos, startDate, endDate)`. -/
def calculateLeadTimeForChanges (db : DB) (owner : String) (repos : List String)
    (s e : ℤ) : LeadData :=
  let acc := repos.foldl
    (fun a repo => (findPullRequests db owner repo s e).foldl (leadStepPR repo) a)
    ⟨[], [], 0, 0, [], []⟩
  { userLeadTime := calculateAverage acc.userLeadTime acc.userPRCount
    orgLeadTime := acc.orgLeadTime / jsOrN acc.orgPRCount 1
    repoLeadTime := calculateAverage acc.repoLeadTime acc.repoPRCount }

/-- Mutable state of `calculateChangeFailureRate` before the rate division. -/
structure FailAcc where
  userFailures : Obj ℚ
  userTotal : Obj ℚ
  orgFailures : ℚ
  orgTotal : ℚ
  repoFailures : Obj ℚ
  repoTotal : Obj ℚ
deriving Repr, DecidableEq

/-- `issue.labels.some(label => label.name === "failure")`. -/
def isFailureIssue (i : Issue) : Bool := i.labels.contains "failure"

/-- Body of the `issueDocs.forEach` loop of `calculateChangeFailureRate`. -/
def failStepIssue (repo : String) (acc : FailAcc) (i : Issue) : FailAcc :=
  let acc1 : FailAcc :=
    { acc with
      userTotal := incr acc.userTotal i.user 1
      orgTotal := acc.orgTotal + 1
      repoTotal := incr acc.repoTotal repo 1 }
  if isFailureIssue i then
    { acc1 with
      userFailures := incr acc1.userFailures i.user 1
      orgFailures := acc1.orgFailures + 1
      repoFailures := incr acc1.repoFailures repo 1 }
  else acc1

/-- Result of `calculateChangeFailureRate`; rates that JS computes as `NaN`
are `none`. -/
structure FailData where
  userFailureRates : Obj (Option ℚ)
  orgFailureRate : Option ℚ
  repoFailureRates : Obj (Option ℚ)
deriving Repr, DecidableEq

/-- `calculateChangeFailureRate(owner, repos, startDate, endDate)`. The
per-user and per-repo rates are built over the keys of the `total` records;
the organization rate `(orgFailures / orgTotal) * 100` has no zero guard. -/
def calculateChangeFailureRate (db : DB) (owner : String) (repos : List String)
    (s e : ℤ) : FailData :=
  let acc := repos.foldl
    (fun a repo => (findIssues db owner repo s e).foldl (failStepIssue repo) a)
    ⟨[], [], 0, 0, [], []⟩
  { userFailureRates := acc.userTotal.map
      (fun p => (p.1, (jsDiv (jsOr (getR acc.userFailures p.1) 0) p.2).map (· * 100)))
    orgFailureRate := (jsDiv acc.orgFailures acc.orgTotal).map (· * 100)
    repoFailureRates := acc.repoTotal.map
      (fun p => (p.1, (jsDiv (jsOr (getR acc.repoFailures p.1) 0) p.2).map (· * 100))) }

/-- Mutable state of `calculateTimeToRestoreService` before averaging. -/
structure RestoreAcc where
  userRestoreTime : Obj ℚ
  userFailureCount : Obj ℚ
  orgRestoreTime : ℚ
  orgFailureCount : ℚ
  repoRestoreTime : Obj ℚ
  repoFailureCount : Obj ℚ
deriving Repr, DecidableEq

/-- The restore time the source computes, transcribed with the source's
parenthesization:
`Math.round((closed.getTime() - created.getTime() / (1000*60*60)) * 100) / 100`. -/
def sourceRestoreTime (createdAt closedAt : ℤ) : ℚ :=
  round2 ((closedAt : ℚ) - (createdAt : ℚ) / (1000 * 60 * 60))

/-- Body of the `issueDocs.forEach` loop of `calculateTimeToRestoreService`:
only issues that carry the `"failure"` label and have `closedAt` contribute. -/
def restoreStepIssue (repo : String) (acc : RestoreAcc) (i : Issue) : RestoreAcc :=
  if isFailureIssue i then
    match i.closedAt with
    | none => acc
    | some c =>
      let rt := sourceRestoreTime i.createdAt c
      { userRestoreTime := incr acc.userRestoreTime i.user rt
        userFailureCount := incr acc.userFailureCount i.user 1
        orgRestoreTime := acc.orgRestoreTime + rt
        orgFailureCount := acc.orgFailureCount + 1
        repoRestoreTime := incr acc.repoRestoreTime repo rt
        repoFailureCount := incr acc.repoFailureCount repo 1 }
  else acc

/-- Result of `calculateTimeToRestoreService` (already averaged). -/
structure RestoreData where
  userRestoreTime : Obj ℚ
  orgRestoreTime : ℚ
  repoRestoreTime : Obj ℚ
deriving Repr, DecidableEq

/-- `calculateTimeToRestoreService(owner, repos, startDate, endDate)`. -/
def calculateTimeToRestoreService (db : DB) (owner : String) (repos : List String)
    (s e : ℤ) : RestoreData :=
  let acc := repos.foldl
    (fun a repo => (findIssues db owner repo s e).foldl (restoreStepIssue repo) a)
    ⟨[], [], 0, 0, [], []⟩
  { userRestoreTime := calculateAverage acc.userRestoreTime acc.userFailureCount
    orgRestoreTime := acc.orgRestoreTime / jsOrN acc.orgFailureCount 1
    repoRestoreTime := calculateAverage acc.repoRestoreTime acc.repoFailureCount }

/-! ### Combining the four reducers for one window. -/

/-- One per-user or per-repo result entry (`UserMetrics` / `RepoMetrics`). -/
structure SubjTuple where
  subject : String
  deploymentFrequency : ℚ
  leadTimeForChanges : ℚ
  changeFailureRate : ℚ
  timeToRestoreService : ℚ
deriving Repr, DecidableEq

/-- One organization-level result entry. `org` is `none` for entries
reconstructed from the cache (the restore path builds the object without an
`org` property), and the `changeFailureRate` can be JS `NaN` (`none`). -/
structure OrgEntry where
  org : Option String
  deploymentFrequency : ℚ
  leadTimeForChanges : ℚ
  changeFailureRate : Option ℚ
  timeToRestoreService : ℚ
deriving Repr, DecidableEq

/-- The `{ orgs, repos, users }` value `combineMetrics` returns for a window. -/
structure WindowMetrics where
  orgs : OrgEntry
  repos : List SubjTuple
  users : List SubjTuple
deriving Repr, DecidableEq

/-- Helper for `dedupKeys`: keep the elements not yet seen, in order. -/
def dedupAux (seen : List String) : List String → List String
  | [] => []
  | k :: ks => if k ∈ seen then dedupAux seen ks else k :: dedupAux (k :: seen) ks

/-- `Array.from(new Set([...]))` over key lists: deduplication keeping first
occurrences, in order (JS `Set` iterates in insertion order). -/
def dedupKeys (l : List String) : List String := dedupAux [] l

/-- `combineMetrics(owner, deploymentData, leadTimeData, failureRateData,
restoreTimeData)`: the user set is the union of the four reducers' user keys;
the repo set is the keys of `repoDeployments` only. -/
def combineMetrics (owner : String) (dep : DeploymentData) (lead : LeadData)
    (fail : FailData) (restore : RestoreData) : WindowMetrics :=
  let users := dedupKeys (keysR dep.userDeployments ++ keysR lead.userLeadTime ++
    keysR fail.userFailureRates ++ keysR restore.userRestoreTime)
  { orgs := ⟨some owner, dep.orgDeployment, lead.orgLeadTime,
      fail.orgFailureRate, restore.orgRestoreTime⟩
    repos := (keysR dep.repoDeployments).map (fun repo =>
      ⟨repo, jsOr (getR dep.repoDeployments repo) 0,
        jsOr (getR lead.repoLeadTime repo) 0,
        jsOrO (getR fail.repoFailureRates repo) 0,
        jsOr (getR restore.repoRestoreTime repo) 0⟩)
    users := users.map (fun u =>
      ⟨u, jsOr (getR dep.userDeployments u) 0,
        jsOr (getR lead.userLeadTime u) 0,
        jsOrO (getR fail.userFailureRates u) 0,
        jsOr (getR restore.userRestoreTime u) 0⟩) }

/-- The whole per-window computation of `calculateUserDoraMetrics`: run the
four reducers on one window and combine them. -/
def computeWindow (db : DB) (owner : String) (repos : List String)
    (s e : ℤ) : WindowMetrics :=
  combineMetrics owner
    (calculateDeploymentFrequency db owner s e)
    (calculateLeadTimeForChanges db owner repos s e)
    (calculateChangeFailureRate db owner repos s e)
    (calculateTimeToRestoreService db owner repos s e)

/-! ### The time bucketizer (`dateRange`).

`dateRange` works at ISO-date (UTC day) resolution: every yielded boundary is
a `toISODate()` string. Days are modelled as `ℤ` day numbers with day `0` on
a Monday, so luxon's `startOf("day")` is the identity and `startOf("week")`
(weeks start on Monday) subtracts `d % 7`. Months are modelled separately by
`MDate` below. -/

/-- The `day` branch loop: `while (current <= end) yield [d, d]; d++`. -/
def dayLoop (e : ℤ) (current : ℤ) : List (ℤ × ℤ) :=
  if current ≤ e then (current, current) :: dayLoop e (current + 1) else []
termination_by (e + 1 - current).toNat
decreasing_by omega

/-- `dateRange(start, end, "day")`. -/
def dateRangeDay (s e : ℤ) : List (ℤ × ℤ) := dayLoop e s

/-- `start.startOf("week")`: the preceding Monday (day `0` is a Monday). -/
def weekStart (d : ℤ) : ℤ := d - d % 7

/-- The `week` branch loop:
`while (current <= end) yield [current, min(current+6, end)]; current += 7`. -/
def weekLoop (e : ℤ) (current : ℤ) : List (ℤ × ℤ) :=
  if current ≤ e then (current, min (current + 6) e) :: weekLoop e (current + 7) else []
termination_by (e + 1 - current).toNat
decreasing_by omega

/-- `dateRange(start, end, "week")`. -/
def dateRangeWeek (s e : ℤ) : List (ℤ × ℤ) := weekLoop e (weekStart s)

/-- Gregorian leap-year test. -/
def isLeapYear (y : ℤ) : Bool := (y % 4 == 0 && y % 100 != 0) || y % 400 == 0

/-- Number of days of month index `mu` (month `mu % 12`, `0` = January, of
year `mu / 12`). -/
def monthLength (mu : ℤ) : ℤ :=
  let m := mu % 12
  if m = 1 then (if isLeapYear (mu / 12) then 29 else 28)
  else if m = 3 ∨ m = 5 ∨ m = 8 ∨ m = 10 then 30 else 31

theorem monthLength_pos (mu : ℤ) : 0 < monthLength mu := by
  unfold monthLength
  dsimp only
  split
  · split <;> omega
  · split <;> omega

/-- A calendar date at month-structured resolution: month index `mu` and a
zero-based day offset `o` inside that month. The calendar-date order is the
lexicographic order on `(mu, o)`. -/
structure MDate where
  mu : ℤ
  o : ℤ
  ho : 0 ≤ o ∧ o < monthLength mu

theorem MDate.ext2 {a b : MDate} (h1 : a.mu = b.mu) (h2 : a.o = b.o) : a = b := by
  cases a; cases b
  subst h1; subst h2; rfl

instance : DecidableEq MDate := fun a b =>
  if h : a.mu = b.mu ∧ a.o = b.o then .isTrue (MDate.ext2 h.1 h.2)
  else .isFalse (fun he => h (by cases he; exact ⟨rfl, rfl⟩))

/-- The calendar order `a <= b` on `MDate`. -/
def mle (a b : MDate) : Prop := a.mu < b.mu ∨ (a.mu = b.mu ∧ a.o ≤ b.o)

/-- The strict calendar order `a < b` on `MDate`. -/
def mlt (a b : MDate) : Prop := a.mu < b.mu ∨ (a.mu = b.mu ∧ a.o < b.o)

instance (a b : MDate) : Decidable (mle a b) := by unfold mle; exact inferInstance

instance (a b : MDate) : Decidable (mlt a b) := by unfold mlt; exact inferInstance

/-- The first day of month `mu` (what `plus({months: 1})` reaches from the
previous month's first day, and what `startOf("month")` returns). -/
def monthStartOf (mu : ℤ) : MDate := ⟨mu, 0, ⟨le_refl 0, monthLength_pos mu⟩⟩

/-- `d.startOf("month")`. -/
def monthStartM (d : MDate) : MDate := monthStartOf d.mu

/-- `d.endOf("month")` at day resolution: last day of `d`'s month. -/
def monthEndM (d : MDate) : MDate :=
  ⟨d.mu, monthLength d.mu - 1, by have := monthLength_pos d.mu; omega⟩

/-- The next calendar day. -/
def succD (d : MDate) : MDate :=
  if h : d.o + 1 < monthLength d.mu then ⟨d.mu, d.o + 1, by have := d.ho; omega⟩
  else monthStartOf (d.mu + 1)

/-- `DateTime.min` for `MDate`. -/
def minM (a b : MDate) : MDate := if mle a b then a else b

/-- The `month` branch loop:
`while (current <= end) yield [current, min(current.endOf("month"), end)];
current = current.plus({months: 1})` — after the initial `startOf("month")`
alignment, `current` is always the first day of a month, so advancing one
month maps `monthStartOf mu` to `monthStartOf (mu + 1)`. -/
def monthLoop (e : MDate) (mu : ℤ) : List (MDate × MDate) :=
  if h : mle (monthStartOf mu) e then
    (monthStartOf mu, minM (monthEndM (monthStartOf mu)) e) :: monthLoop e (mu + 1)
  else []
termination_by (e.mu + 1 - mu).toNat
decreasing_by
  simp only [mle, monthStartOf] at h
  omega

/-- `dateRange(start, end, "month")`. -/
def dateRangeMonth (s e : MDate) : List (MDate × MDate) := monthLoop e s.mu

/-! Properties stated by the bucketization claims. -/

/-- Every day of `[s, e]` lies in some produced window. -/
def coversZ (s e : ℤ) (W : List (ℤ × ℤ)) : Prop :=
  ∀ x : ℤ, s ≤ x → x ≤ e → ∃ w ∈ W, w.1 ≤ x ∧ x ≤ w.2

/-- The windows are ordered and pairwise non-overlapping. -/
def noOverlapZ (W : List (ℤ × ℤ)) : Prop := W.Pairwise (fun a b => a.2 < b.1)

/-- Consecutive windows are adjacent (no gap): each window starts the day
after the previous one ends. -/
def contiguousZ (W : List (ℤ × ℤ)) : Prop := List.Chain' (fun a b => a.2 + 1 = b.1) W

/-- Every day of `[s, e]` lies in some produced window (month model). -/
def coversM (s e : MDate) (W : List (MDate × MDate)) : Prop :=
  ∀ x : MDate, mle s x → mle x e → ∃ w ∈ W, mle w.1 x ∧ mle x w.2

/-- The windows are ordered and pairwise non-overlapping (month model). -/
def noOverlapM (W : List (MDate × MDate)) : Prop := W.Pairwise (fun a b => mlt a.2 b.1)

/-- Consecutive windows are adjacent (month model). -/
def contiguousM (W : List (MDate × MDate)) : Prop :=
  List.Chain' (fun a b => succD a.2 = b.1) W

/-! Lemmas about the day-granularity loop. -/

theorem dayLoop_empty (e c : ℤ) (h : e < c) : dayLoop e c = [] := by
  rw [dayLoop]; simp [not_le.mpr h]

theorem dayLoop_cons (e c : ℤ) (h : c ≤ e) : dayLoop e c = (c, c) :: dayLoop e (c + 1) := by
  rw [dayLoop]; simp [h]

theorem dayLoop_closed (e : ℤ) :
    ∀ c, dayLoop e c =
      (List.range (e + 1 - c).toNat).map (fun k : ℕ => ((c + k : ℤ), (c + k : ℤ))) := by
  intro c
  induction c using dayLoop.induct e with
  | case1 c h ih =>
    rw [dayLoop_cons e c h, ih]
    have hn : (e + 1 - c).toNat = (e + 1 - (c + 1)).toNat + 1 := by omega
    rw [hn, List.range_succ_eq_map]
    simp only [List.map_cons, List.map_map]
    congr 1
    · simp
    · apply List.map_congr_left
      intro k _
      simp only [Function.comp_apply, Prod.mk.injEq]
      constructor <;> push_cast <;> ring
  | case2 c h =>
    rw [dayLoop_empty e c (by omega)]
    have hn : (e + 1 - c).toNat = 0 := by omega
    rw [hn]
    simp

theorem dayLoop_mem (e : ℤ) : ∀ c, ∀ w ∈ dayLoop e c, c ≤ w.1 ∧ w.1 ≤ e ∧ w.2 = w.1 := by
  intro c
  induction c using dayLoop.induct e with
  | case1 c h ih =>
    rw [dayLoop_cons e c h]
    intro w hw
    rcases List.mem_cons.mp hw with rfl | hw
    · exact ⟨le_refl _, h, rfl⟩
    · have := ih w hw
      exact ⟨by omega, this.2⟩
  | case2 c h =>
    rw [dayLoop_empty e c (by omega)]
    intro w hw
    simp at hw

theorem dayLoop_covers (e : ℤ) : ∀ c, ∀ x : ℤ, c ≤ x → x ≤ e →
    ∃ w ∈ dayLoop e c, w.1 ≤ x ∧ x ≤ w.2 := by
  intro c
  induction c using dayLoop.induct e with
  | case1 c h ih =>
    intro x hcx hxe
    rw [dayLoop_cons e c h]
    rcases eq_or_lt_of_le hcx with heq | hlt
    · exact ⟨(c, c), List.mem_cons_self _ _, by omega, by omega⟩
    · obtain ⟨w, hw, h1, h2⟩ := ih x (by omega) hxe
      exact ⟨w, List.mem_cons_of_mem _ hw, h1, h2⟩
  | case2 c h =>
    intro x hcx hxe
    omega

theorem dayLoop_chain (e : ℤ) : ∀ c, List.Chain' (fun a b => a.2 + 1 = b.1) (dayLoop e c) := by
  intro c
  induction c using dayLoop.induct e with
  | case1 c h ih =>
    rw [dayLoop_cons e c h, List.chain'_cons']
    refine ⟨?_, ih⟩
    intro b hb
    by_cases h2 : c + 1 ≤ e
    · rw [dayLoop_cons e (c + 1) h2] at hb
      simp only [Option.mem_def, List.head?_cons, Option.some.injEq] at hb
      subst hb
      rfl
    · rw [dayLoop_empty e (c + 1) (by omega)] at hb
      simp at hb
  | case2 c h =>
    rw [dayLoop_empty e c (by omega)]
    exact List.chain'_nil

theorem dayLoop_pairwise (e : ℤ) : ∀ c, List.Pairwise (fun a b => a.2 < b.1) (dayLoop e c) := by
  intro c
  induction c using dayLoop.induct e with
  | case1 c h ih =>
    rw [dayLoop_cons e c h, List.pairwise_cons]
    refine ⟨?_, ih⟩
    intro b hb
    have := dayLoop_mem e (c + 1) b hb
    show c < b.1
    omega
  | case2 c h =>
    rw [dayLoop_empty e c (by omega)]
    exact List.Pairwise.nil

theorem dayLoop_head (e c : ℤ) (h : c ≤ e) : (dayLoop e c).head? = some (c, c) := by
  rw [dayLoop_cons e c h]; rfl

theorem dayLoop_last (e : ℤ) : ∀ c, c ≤ e → ((dayLoop e c).getLast?).map (·.2) = some e := by
  intro c
  induction c using dayLoop.induct e with
  | case1 c h ih =>
    intro _
    by_cases h2 : c + 1 ≤ e
    · rw [dayLoop_cons e c h, dayLoop_cons e (c + 1) h2, List.getLast?_cons_cons,
        ← dayLoop_cons e (c + 1) h2]
      exact ih h2
    · have he : c = e := by omega
      subst he
      rw [dayLoop_cons c c (le_refl c), dayLoop_empty c (c + 1) (by omega)]
      rfl
  | case2 c h =>
    intro hc
    omega

/-! Lemmas about the week-granularity loop. -/

theorem weekLoop_empty (e c : ℤ) (h : e < c) : weekLoop e c = [] := by
  rw [weekLoop]; simp [not_le.mpr h]

theorem weekLoop_cons (e c : ℤ) (h : c ≤ e) :
    weekLoop e c = (c, min (c + 6) e) :: weekLoop e (c + 7) := by
  rw [weekLoop]; simp [h]

theorem weekLoop_mem (e : ℤ) :
    ∀ c, ∀ w ∈ weekLoop e c, c ≤ w.1 ∧ w.1 ≤ e ∧ w.2 = min (w.1 + 6) e := by
  intro c
  induction c using weekLoop.induct e with
  | case1 c h ih =>
    rw [weekLoop_cons e c h]
    intro w hw
    rcases List.mem_cons.mp hw with rfl | hw
    · exact ⟨le_refl _, h, rfl⟩
    · have := ih w hw
      exact ⟨by omega, this.2⟩
  | case2 c h =>
    rw [weekLoop_empty e c (by omega)]
    intro w hw
    simp at hw

theorem weekLoop_covers (e : ℤ) : ∀ c, ∀ x : ℤ, c ≤ x → x ≤ e →
    ∃ w ∈ weekLoop e c, w.1 ≤ x ∧ x ≤ w.2 := by
  intro c
  induction c using weekLoop.induct e with
  | case1 c h ih =>
    intro x hcx hxe
    rw [weekLoop_cons e c h]
    by_cases h6 : x ≤ c + 6
    · exact ⟨(c, min (c + 6) e), List.mem_cons_self _ _, hcx, le_min h6 hxe⟩
    · obtain ⟨w, hw, h1, h2⟩ := ih x (by omega) hxe
      exact ⟨w, List.mem_cons_of_mem _ hw, h1, h2⟩
  | case2 c h =>
    intro x hcx hxe
    omega

theorem weekLoop_chain (e : ℤ) :
    ∀ c, List.Chain' (fun a b => a.2 + 1 = b.1) (weekLoop e c) := by
  intro c
  induction c using weekLoop.induct e with
  | case1 c h ih =>
    rw [weekLoop_cons e c h, List.chain'_cons']
    refine ⟨?_, ih⟩
    intro b hb
    by_cases h2 : c + 7 ≤ e
    · rw [weekLoop_cons e (c + 7) h2] at hb
      simp only [Option.mem_def, List.head?_cons, Option.some.injEq] at hb
      subst hb
      show min (c + 6) e + 1 = c + 7
      omega
    · rw [weekLoop_empty e (c + 7) (by omega)] at hb
      simp at hb
  | case2 c h =>
    rw [weekLoop_empty e c (by omega)]
    exact List.chain'_nil

theorem weekLoop_pairwise (e : ℤ) :
    ∀ c, List.Pairwise (fun a b => a.2 < b.1) (weekLoop e c) := by
  intro c
  induction c using weekLoop.induct e with
  | case1 c h ih =>
    rw [weekLoop_cons e c h, List.pairwise_cons]
    refine ⟨?_, ih⟩
    intro b hb
    have := weekLoop_mem e (c + 7) b hb
    show min (c + 6) e < b.1
    omega
  | case2 c h =>
    rw [weekLoop_empty e c (by omega)]
    exact List.Pairwise.nil

theorem weekLoop_head (e c : ℤ) (h : c ≤ e) :
    (weekLoop e c).head? = some (c, min (c + 6) e) := by
  rw [weekLoop_cons e c h]; rfl

theorem weekLoop_last (e : ℤ) :
    ∀ c, c ≤ e → ((weekLoop e c).getLast?).map (·.2) = some e := by
  intro c
  induction c using weekLoop.induct e with
  | case1 c h ih =>
    intro _
    by_cases h2 : c + 7 ≤ e
    · rw [weekLoop_cons e c h, weekLoop_cons e (c + 7) h2, List.getLast?_cons_cons,
        ← weekLoop_cons e (c + 7) h2]
      exact ih h2
    · rw [weekLoop_cons e c h, weekLoop_empty e (c + 7) (by omega)]
      have : min (c + 6) e = e := by omega
      rw [this]
      rfl
  | case2 c h =>
    intro hc
    omega

theorem weekStart_le (d : ℤ) : weekStart d ≤ d := by
  unfold weekStart
  have := Int.emod_nonneg d (by norm_num : (7:ℤ) ≠ 0)
  omega

/-! Lemmas about the month-granularity loop. -/

theorem monthStartOf_mu (mu : ℤ) : (monthStartOf mu).mu = mu := rfl

theorem monthStartOf_o (mu : ℤ) : (monthStartOf mu).o = 0 := rfl

theorem monthEndM_mu (d : MDate) : (monthEndM d).mu = d.mu := rfl

theorem monthEndM_o (d : MDate) : (monthEndM d).o = monthLength d.mu - 1 := rfl

theorem not_mle {a b : MDate} : ¬ mle a b ↔ mlt b a := by
  unfold mle mlt
  constructor
  · intro h
    omega
  · intro h hc
    omega

theorem mle_trans {a b c : MDate} (h1 : mle a b) (h2 : mle b c) : mle a c := by
  unfold mle at *
  omega

theorem minM_left {a b : MDate} (h : mle a b) : minM a b = a := by
  unfold minM
  rw [if_pos h]

theorem minM_right {a b : MDate} (h : ¬ mle a b) : minM a b = b := by
  unfold minM
  rw [if_neg h]

theorem succD_atEnd {d : MDate} (h : d.o = monthLength d.mu - 1) :
    succD d = monthStartOf (d.mu + 1) := by
  unfold succD
  rw [dif_neg (by omega)]

theorem monthLoop_empty (e : MDate) (mu : ℤ) (h : ¬ mle (monthStartOf mu) e) :
    monthLoop e mu = [] := by
  rw [monthLoop]; simp [h]

theorem monthLoop_cons (e : MDate) (mu : ℤ) (h : mle (monthStartOf mu) e) :
    monthLoop e mu =
      (monthStartOf mu, minM (monthEndM (monthStartOf mu)) e) :: monthLoop e (mu + 1) := by
  rw [monthLoop]; simp [h]

theorem monthLoop_mem (e : MDate) : ∀ mu, ∀ w ∈ monthLoop e mu,
    ∃ m : ℤ, mu ≤ m ∧ mle (monthStartOf m) e ∧
      w = (monthStartOf m, minM (monthEndM (monthStartOf m)) e) := by
  intro mu
  induction mu using monthLoop.induct e with
  | case1 mu h ih =>
    rw [monthLoop_cons e mu h]
    intro w hw
    rcases List.mem_cons.mp hw with rfl | hw
    · exact ⟨mu, le_refl _, h, rfl⟩
    · obtain ⟨m, hm1, hm2, hm3⟩ := ih w hw
      exact ⟨m, by omega, hm2, hm3⟩
  | case2 mu h =>
    rw [monthLoop_empty e mu h]
    intro w hw
    simp at hw

theorem monthLoop_covers (e : MDate) : ∀ mu, ∀ x : MDate, mu ≤ x.mu → mle x e →
    ∃ w ∈ monthLoop e mu, mle w.1 x ∧ mle x w.2 := by
  intro mu
  induction mu using monthLoop.induct e with
  | case1 mu h ih =>
    intro x hmu hxe
    rw [monthLoop_cons e mu h]
    by_cases hx : x.mu = mu
    · refine ⟨(monthStartOf mu, minM (monthEndM (monthStartOf mu)) e),
        List.mem_cons_self _ _, ?_, ?_⟩
      · have hxo := x.ho
        unfold mle
        rw [monthStartOf_mu, monthStartOf_o]
        omega
      · by_cases hm : mle (monthEndM (monthStartOf mu)) e
        · rw [minM_left hm]
          have hxo := x.ho
          have hlen : monthLength x.mu = monthLength mu := by rw [hx]
          unfold mle
          rw [monthEndM_mu, monthEndM_o, monthStartOf_mu]
          omega
        · rw [minM_right hm]
          exact hxe
    · obtain ⟨w, hw, h1, h2⟩ := ih x (by omega) hxe
      exact ⟨w, List.mem_cons_of_mem _ hw, h1, h2⟩
  | case2 mu h =>
    intro x hmu hxe
    exfalso
    apply h
    have hxo := x.ho
    apply mle_trans (b := x) _ hxe
    unfold mle
    rw [monthStartOf_mu, monthStartOf_o]
    omega

theorem monthLoop_chain (e : MDate) :
    ∀ mu, List.Chain' (fun a b => succD a.2 = b.1) (monthLoop e mu) := by
  intro mu
  induction mu using monthLoop.induct e with
  | case1 mu h ih =>
    rw [monthLoop_cons e mu h, List.chain'_cons']
    refine ⟨?_, ih⟩
    intro b hb
    by_cases h2 : mle (monthStartOf (mu + 1)) e
    · rw [monthLoop_cons e (mu + 1) h2] at hb
      simp only [Option.mem_def, List.head?_cons, Option.some.injEq] at hb
      subst hb
      have hm : mle (monthEndM (monthStartOf mu)) e := by
        unfold mle at h2 ⊢
        rw [monthStartOf_mu, monthStartOf_o] at h2
        rw [monthEndM_mu, monthEndM_o, monthStartOf_mu]
        omega
      show succD (minM (monthEndM (monthStartOf mu)) e) = monthStartOf (mu + 1)
      rw [minM_left hm, succD_atEnd (by rw [monthEndM_o, monthEndM_mu])]
      rw [monthEndM_mu, monthStartOf_mu]
    · rw [monthLoop_empty e (mu + 1) h2] at hb
      simp at hb
  | case2 mu h =>
    rw [monthLoop_empty e mu h]
    exact List.chain'_nil

theorem monthLoop_pairwise (e : MDate) :
    ∀ mu, List.Pairwise (fun a b => mlt a.2 b.1) (monthLoop e mu) := by
  intro mu
  induction mu using monthLoop.induct e with
  | case1 mu h ih =>
    rw [monthLoop_cons e mu h, List.pairwise_cons]
    refine ⟨?_, ih⟩
    intro b hb
    obtain ⟨m, hm1, _, rfl⟩ := monthLoop_mem e (mu + 1) b hb
    show mlt (minM (monthEndM (monthStartOf mu)) e) (monthStartOf m)
    by_cases hm : mle (monthEndM (monthStartOf mu)) e
    · rw [minM_left hm]
      unfold mlt
      rw [monthEndM_mu, monthStartOf_mu, monthStartOf_mu]
      omega
    · rw [minM_right hm]
      rw [not_mle] at hm
      unfold mlt at hm ⊢
      rw [monthEndM_mu, monthEndM_o, monthStartOf_mu] at hm
      rw [monthStartOf_mu]
      omega
  | case2 mu h =>
    rw [monthLoop_empty e mu h]
    exact List.Pairwise.nil

theorem monthLoop_head (e : MDate) (mu : ℤ) (h : mle (monthStartOf mu) e) :
    (monthLoop e mu).head? =
      some (monthStartOf mu, minM (monthEndM (monthStartOf mu)) e) := by
  rw [monthLoop_cons e mu h]; rfl

theorem monthLoop_last (e : MDate) : ∀ mu, mle (monthStartOf mu) e →
    ((monthLoop e mu).getLast?).map (·.2) = some e := by
  intro mu
  induction mu using monthLoop.induct e with
  | case1 mu h ih =>
    intro _
    by_cases h2 : mle (monthStartOf (mu + 1)) e
    · rw [monthLoop_cons e mu h, monthLoop_cons e (mu + 1) h2, List.getLast?_cons_cons,
        ← monthLoop_cons e (mu + 1) h2]
      exact ih h2
    · rw [monthLoop_cons e mu h, monthLoop_empty e (mu + 1) h2]
      have heq : minM (monthEndM (monthStartOf mu)) e = e := by
        unfold mle at h h2
        rw [monthStartOf_mu, monthStartOf_o] at h h2
        by_cases hm : mle (monthEndM (monthStartOf mu)) e
        · rw [minM_left hm]
          unfold mle at hm
          rw [monthEndM_mu, monthEndM_o, monthStartOf_mu] at hm
          have heo := e.ho
          refine (MDate.ext2 ?_ ?_).symm
          · rw [monthEndM_mu, monthStartOf_mu]
            omega
          · rw [monthEndM_o, monthStartOf_mu]
            have hlen : monthLength e.mu = monthLength mu := by
              have : e.mu = mu := by omega
              rw [this]
            omega
        · exact minM_right hm
      rw [heq]
      rfl
  | case2 mu h =>
    intro hc
    exact absurd hc h

theorem monthStartM_le (d : MDate) : mle (monthStartM d) d := by
  unfold monthStartM mle
  rw [monthStartOf_mu, monthStartOf_o]
  have := d.ho
  omega

/-! ### Claims C3 and C4: bucketization. -/

/-- The bucketization properties claimed for day and week granularity:
one window per calendar day (closed form), full coverage of `[s, e]`,
adjacency (no gaps), pairwise non-overlap, first window at the bucket-aligned
boundary (at or before `s`), and last window end clamped to `e`. -/
def dayWeekBundle (s e : ℤ) : Prop :=
  (dateRangeDay s e =
      (List.range (e + 1 - s).toNat).map (fun k : ℕ => ((s + k : ℤ), (s + k : ℤ)))) ∧
  coversZ s e (dateRangeDay s e) ∧ contiguousZ (dateRangeDay s e) ∧
  noOverlapZ (dateRangeDay s e) ∧
  (dateRangeDay s e).head? = some (s, s) ∧
  ((dateRangeDay s e).getLast?).map (·.2) = some e ∧
  coversZ s e (dateRangeWeek s e) ∧ contiguousZ (dateRangeWeek s e) ∧
  noOverlapZ (dateRangeWeek s e) ∧
  weekStart s ≤ s ∧
  (dateRangeWeek s e).head? = some (weekStart s, min (weekStart s + 6) e) ∧
  ((dateRangeWeek s e).getLast?).map (·.2) = some e

/-- The bucketization properties claimed for month granularity. -/
def monthBundle (s e : MDate) : Prop :=
  coversM s e (dateRangeMonth s e) ∧ contiguousM (dateRangeMonth s e) ∧
  noOverlapM (dateRangeMonth s e) ∧
  mle (monthStartM s) s ∧
  (dateRangeMonth s e).head? =
    some (monthStartM s, minM (monthEndM (monthStartM s)) e) ∧
  ((dateRangeMonth s e).getLast?).map (·.2) = some e

/-- C3: for every `startDate ≤ endDate` and granularity in
`{day, week, month}`, the produced windows are an ordered sequence of
non-overlapping, gap-free spans covering `[startDate, endDate]`; at day
granularity there is one window per calendar day from start to end inclusive;
the first window starts at the bucket-aligned boundary (at or before
`startDate`), and the last window's end is clamped to `endDate`. -/
theorem claim_C3_windows_partition_range :
    (∀ s e : ℤ, s ≤ e → dayWeekBundle s e) ∧
    (∀ s e : MDate, mle s e → monthBundle s e) := by
  constructor
  · intro s e hse
    have hws := weekStart_le s
    refine ⟨dayLoop_closed e s, ?_, dayLoop_chain e s, dayLoop_pairwise e s,
      dayLoop_head e s hse, dayLoop_last e s hse, ?_, weekLoop_chain e (weekStart s),
      weekLoop_pairwise e (weekStart s), hws,
      weekLoop_head e (weekStart s) (by omega), weekLoop_last e (weekStart s) (by omega)⟩
    · intro x h1 h2
      exact dayLoop_covers e s x h1 h2
    · intro x h1 h2
      exact weekLoop_covers e (weekStart s) x (by omega) h2
  · intro s e hse
    have hm : mle (monthStartOf s.mu) e := mle_trans (monthStartM_le s) hse
    refine ⟨?_, monthLoop_chain e s.mu, monthLoop_pairwise e s.mu, monthStartM_le s,
      monthLoop_head e s.mu hm, monthLoop_last e s.mu hm⟩
    intro x h1 h2
    apply monthLoop_covers e s.mu x _ h2
    unfold mle at h1
    omega

/-- 2024-02-05 in the month-structured date model. -/
def mdStart2024 : MDate := ⟨24289, 4, by decide⟩

/-- 2024-04-10 in the month-structured date model. -/
def mdEnd2024 : MDate := ⟨24291, 9, by decide⟩

/-- 2024-02-01 in the month-structured date model. -/
def mdFeb2024 : MDate := ⟨24289, 0, by decide⟩

/-- Witness for C3 at concrete inputs. -/
theorem claim_C3_windows_partition_range_witness :
    ((0:ℤ) ≤ 6 ∧ dayWeekBundle 0 6) ∧
    (mle mdStart2024 mdEnd2024 ∧ monthBundle mdStart2024 mdEnd2024) :=
  ⟨⟨by decide, claim_C3_windows_partition_range.1 0 6 (by decide)⟩,
   ⟨by decide, claim_C3_windows_partition_range.2 mdStart2024 mdEnd2024 (by decide)⟩⟩

/-- C4 counterexample: `startDate` strictly after `endDate` does not always
produce an empty sequence. Day 2 (a Wednesday) is strictly after day 0
(a Monday), yet week granularity aligns the cursor back to the Monday and
yields one window. -/
theorem claim_C4_counterexample :
    (0:ℤ) < 2 ∧ dateRangeWeek 2 0 = [(0, 0)] := by
  refine ⟨by decide, ?_⟩
  unfold dateRangeWeek
  have h1 : weekStart 2 = 0 := by decide
  rw [h1, weekLoop_cons 0 0 (by decide)]
  norm_num
  rw [weekLoop_empty 0 7 (by decide)]

/-- C4 amended: with `startDate > endDate` the day branch always yields an
empty sequence (and no error), while the week and month branches yield an
empty sequence exactly when even the bucket-aligned start is after
`endDate`; otherwise they yield (non-empty) windows, still without error. -/
theorem claim_C4_amended_empty_conditions :
    (∀ s e : ℤ, e < s →
      dateRangeDay s e = [] ∧
      (dateRangeWeek s e = [] ↔ e < weekStart s)) ∧
    (∀ s e : MDate, mlt e s →
      (dateRangeMonth s e = [] ↔ mlt e (monthStartM s))) := by
  constructor
  · intro s e hse
    refine ⟨dayLoop_empty e s hse, ?_, ?_⟩
    · intro h
      by_contra hc
      push_neg at hc
      rw [dateRangeWeek, weekLoop_cons e (weekStart s) hc] at h
      simp at h
    · intro h
      exact weekLoop_empty e (weekStart s) h
  · intro s e _
    constructor
    · intro h
      by_contra hc
      rw [← not_mle] at hc
      push_neg at hc
      rw [dateRangeMonth, monthLoop_cons e s.mu hc] at h
      simp at h
    · intro h
      apply monthLoop_empty
      rw [not_mle]
      exact h

/-- Witness for the amended C4 at concrete inputs. -/
theorem claim_C4_amended_empty_conditions_witness :
    ((0:ℤ) < 2 ∧
      (dateRangeDay 2 0 = [] ∧ (dateRangeWeek 2 0 = [] ↔ (0:ℤ) < weekStart 2))) ∧
    (mlt mdFeb2024 mdStart2024 ∧
      (dateRangeMonth mdStart2024 mdFeb2024 = [] ↔
        mlt mdFeb2024 (monthStartM mdStart2024))) :=
  ⟨⟨by decide, claim_C4_amended_empty_conditions.1 2 0 (by decide)⟩,
   ⟨by decide, claim_C4_amended_empty_conditions.2 mdStart2024 mdFeb2024 (by decide)⟩⟩


/-! ### The score table, the cache, and the orchestrator. -/

/-- The JSON `score` payload stored in a `score` row. A `changeFailureRate`
of `none` is the JS `NaN` an unguarded organization-level division produces. -/
structure ScoreVal where
  deploymentFrequency : ℚ
  leadTime : ℚ
  meanTimeToRestore : ℚ
  changeFailureRate : Option ℚ
deriving Repr, DecidableEq

/-- A row of the `score` table; `stop` is the `end` column. `repo`/`user`
are `none` for organization-level rows. -/
structure ScoreRow where
  id : ℕ
  org : String
  repo : Option String
  user : Option String
  start : ℤ
  stop : ℤ
  granularity : String
  score : ScoreVal
deriving Repr, DecidableEq

/-- The `score` table, in insertion order (rows are never deleted). -/
abbrev Store := List ScoreRow

/-- Storage operations, recorded in issue order. -/
inductive Ev where
  | connect
  | readRepos
  | readScore
  | readReleases
  | readPullRequests
  | readIssues
  | writeScore
deriving Repr, DecidableEq

/-- Read from a JS object keyed by window-start dates
(`none` when the key is absent). -/
def getZ {α : Type} (m : List (ℤ × α)) (k : ℤ) : Option α :=
  (m.find? (fun p => p.1 == k)).map (·.2)

/-- Assignment into a JS object keyed by window-start dates. -/
def setZ {α : Type} : List (ℤ × α) → ℤ → α → List (ℤ × α)
  | [], k, v => [(k, v)]
  | p :: ps, k, v => if p.1 == k then (k, v) :: ps else p :: setZ ps k v

/-- `score.findMany({ where: { org, granularity, start: { in: dates.map(fst) } } })`
— note: no `repo`/`user` filter, so per-repo and per-user rows also match. -/
def findCachedScores (store : Store) (owner : String) (dates : List (ℤ × ℤ))
    (granularity : String) : List ScoreRow :=
  store.filter (fun r => r.org == owner && r.granularity == granularity &&
    (dates.map (·.1)).contains r.start)

/-- The entry `getCachedMetrics` reconstructs from a cached row: only
organization-level numbers (without an `org` property), and empty
`repos`/`users` lists. -/
def restoreEntry (r : ScoreRow) : WindowMetrics :=
  { orgs :=
    { org := none
      deploymentFrequency := r.score.deploymentFrequency
      leadTimeForChanges := r.score.leadTime
      changeFailureRate := r.score.changeFailureRate
      timeToRestoreService := r.score.meanTimeToRestore }
    repos := []
    users := [] }

/-- `getCachedMetrics(owner, dates, granularity)`: index the matching rows by
`score.start`; a later row with the same start overwrites an earlier one. -/
def getCachedMetrics (store : Store) (owner : String) (dates : List (ℤ × ℤ))
    (granularity : String) : List (ℤ × WindowMetrics) :=
  (findCachedScores store owner dates granularity).foldl
    (fun m r => setZ m r.start (restoreEntry r)) []

/-- `saveMetricsToCache(owner, start, end, granularity, metrics)`: an
unconditional `db.score.create` of the organization-level score of a freshly
computed window (a plain insert, not an upsert). -/
def saveMetricsToCache (store : Store) (owner : String) (s e : ℤ)
    (granularity : String) (m : WindowMetrics) : Store :=
  store ++ [
    { id := store.length
      org := owner
      repo := none
      user := none
      start := s
      stop := e
      granularity := granularity
      score :=
        { deploymentFrequency := m.orgs.deploymentFrequency
          leadTime := m.orgs.leadTimeForChanges
          changeFailureRate := m.orgs.changeFailureRate
          meanTimeToRestore := m.orgs.timeToRestoreService } }]

/-- The `DoraMetrics` result: window-start-keyed mappings for users, orgs
and repos. -/
structure DoraMetrics where
  users : List (ℤ × List SubjTuple)
  orgs : List (ℤ × OrgEntry)
  repos : List (ℤ × List SubjTuple)
deriving Repr, DecidableEq

/-- `formatMetrics(cachedMetrics)`: split the per-window entries into the
three window-keyed mappings. -/
def formatMetrics (cached : List (ℤ × WindowMetrics)) : DoraMetrics :=
  { users := cached.map (fun p => (p.1, p.2.users))
    orgs := cached.map (fun p => (p.1, p.2.orgs))
    repos := cached.map (fun p => (p.1, p.2.repos)) }

/-! Civil-calendar conversion (proleptic Gregorian), used by the orchestrator
for month arithmetic on day numbers. Day `0` of the model is 1970-01-05 (a
Monday), i.e. Unix day 4. -/

/-- Day number of the civil date `(y, m, d)` with `m ∈ 1..12`; linear in `d`,
so an out-of-range `d` rolls over exactly like JS `Date` normalization. -/
def daysFromCivil (y m d : ℤ) : ℤ :=
  let y1 := if m ≤ 2 then y - 1 else y
  let era := y1 / 400
  let yoe := y1 - era * 400
  let mp := (m + 9) % 12
  let doy := (153 * mp + 2) / 5 + d - 1
  let doe := yoe * 365 + yoe / 4 - yoe / 100 + doy
  era * 146097 + doe - 719468 - 4

/-- Civil date `(y, m, d)` of a day number. -/
def civilFromDays (z : ℤ) : ℤ × ℤ × ℤ :=
  let z1 := z + 4 + 719468
  let era := z1 / 146097
  let doe := z1 - era * 146097
  let yoe := (doe - doe / 1460 + doe / 36524 - doe / 146096) / 365
  let y1 := yoe + era * 400
  let doy := doe - (365 * yoe + yoe / 4 - yoe / 100)
  let mp := (5 * doy + 2) / 153
  let d := doy - (153 * mp + 2) / 5 + 1
  let m := if mp < 10 then mp + 3 else mp - 9
  (if m ≤ 2 then y1 + 1 else y1, m, d)

/-- First day of the month containing day `z`. -/
def monthStartZ (z : ℤ) : ℤ :=
  let c := civilFromDays z
  daysFromCivil c.1 c.2.1 1

/-- Last day of the month containing day `z`. -/
def monthEndZ (z : ℤ) : ℤ :=
  (let c := civilFromDays z
   if c.2.1 = 12 then daysFromCivil (c.1 + 1) 1 1 else daysFromCivil c.1 (c.2.1 + 1) 1) - 1

/-- The month-branch loop of `dateRange` on day numbers; the fuel only bounds
the iteration count (it is chosen large enough in `dateRangeMonthZ`, months
having at least 28 days). -/
def monthLoopZ : ℕ → ℤ → ℤ → List (ℤ × ℤ)
  | 0, _, _ => []
  | fuel + 1, current, e =>
    if current ≤ e then
      (current, min (monthEndZ current) e) :: monthLoopZ fuel (monthEndZ current + 1) e
    else []

/-- `dateRange(start, end, "month")` on day numbers. -/
def dateRangeMonthZ (s e : ℤ) : List (ℤ × ℤ) :=
  monthLoopZ ((e - monthStartZ s) / 28 + 2).toNat (monthStartZ s) e

/-- The `dates` array `calculateUserDoraMetrics` materializes: the `week` and
`month` granularities select their branches, and every other granularity
string (including invalid ones) falls through to the `day` branch. -/
def doraDates (s e : ℤ) (granularity : String) : List (ℤ × ℤ) :=
  if granularity = "week" then dateRangeWeek s e
  else if granularity = "month" then dateRangeMonthZ s e
  else dateRangeDay s e

/-- Milliseconds of midnight UTC of a day number (`new Date(isoDate)`). -/
def msOfDay (d : ℤ) : ℤ := d * 86400000

/-- `getEndDate(start, granularity)`: day `+1`, week `+7`, month `+1` month;
any other granularity throws `Invalid granularity: <g>`. -/
def getEndDate (start : ℤ) (granularity : String) : Except String ℤ :=
  if granularity = "day" then .ok (start + 1)
  else if granularity = "week" then .ok (start + 7)
  else if granularity = "month" then
    .ok (let c := civilFromDays start
         if c.2.1 = 12 then daysFromCivil (c.1 + 1) 1 c.2.2
         else daysFromCivil c.1 (c.2.1 + 1) c.2.2)
  else .error ("Invalid granularity: " ++ granularity)

/-- The argument object passed to `upsertScore`; `none` in `repo`/`user`
models a property absent from the object (`undefined`), which Prisma ignores
in `where` filters and leaves unchanged in updates. -/
structure UpsertData where
  org : String
  repo : Option String
  user : Option String
  start : ℤ
  stop : ℤ
  granularity : String
  score : ScoreVal
deriving Repr, DecidableEq

/-- The `findFirst` filter of `upsertScore`: absent properties are skipped —
in particular an organization-level payload (no `repo`/`user`) matches rows of
any level with the same `org`/`start`/`granularity`. -/
def upsertMatches (d : UpsertData) (r : ScoreRow) : Bool :=
  r.org == d.org &&
  (match d.repo with | none => true | some v => r.repo == some v) &&
  (match d.user with | none => true | some v => r.user == some v) &&
  r.start == d.start &&
  r.granularity == d.granularity

/-- `upsertScore(data)`: `findFirst` with the key fields, then `update` the
found row in place, or `create` a new row. -/
def upsertScore (store : Store) (d : UpsertData) : Store :=
  match store.find? (upsertMatches d) with
  | some ex =>
    store.map (fun r =>
      if r.id == ex.id then
        { r with
          org := d.org
          start := d.start
          stop := d.stop
          granularity := d.granularity
          score := d.score
          repo := (match d.repo with | none => r.repo | some v => some v)
          user := (match d.user with | none => r.user | some v => some v) }
      else r)
  | none =>
    store ++ [
      { id := store.length
        org := d.org
        repo := d.repo
        user := d.user
        start := d.start
        stop := d.stop
        granularity := d.granularity
        score := d.score }]

/-- The score payload built from a per-repo or per-user tuple. -/
def subjScore (t : SubjTuple) : ScoreVal :=
  { deploymentFrequency := t.deploymentFrequency
    leadTime := t.leadTimeForChanges
    meanTimeToRestore := t.timeToRestoreService
    changeFailureRate := some t.changeFailureRate }

/-- `saveMetricsToDB(owner, metrics, granularity)`: upsert one row per
org-level window entry, then per repo entry, then per user entry; the
`getEndDate` call throws on an invalid granularity before any of that
window's upserts. -/
def saveMetricsToDB (store : Store) (owner : String) (metrics : DoraMetrics)
    (granularity : String) : Except String (Store × List Ev) := do
  let s1 ← metrics.orgs.foldlM (fun (acc : Store × List Ev) p => do
    let e ← getEndDate p.1 granularity
    let st := upsertScore acc.1
      { org := owner, repo := none, user := none, start := p.1, stop := e,
        granularity := granularity,
        score :=
          { deploymentFrequency := p.2.deploymentFrequency
            leadTime := p.2.leadTimeForChanges
            meanTimeToRestore := p.2.timeToRestoreService
            changeFailureRate := p.2.changeFailureRate } }
    pure (st, acc.2 ++ [Ev.readScore, Ev.writeScore])) (store, ([] : List Ev))
  let s2 ← metrics.repos.foldlM (fun (acc : Store × List Ev) p => do
    let e ← getEndDate p.1 granularity
    pure (p.2.foldl (fun st t => upsertScore st
        { org := owner, repo := some t.subject, user := none, start := p.1,
          stop := e, granularity := granularity, score := subjScore t }) acc.1,
      acc.2 ++ (p.2.map (fun _ => [Ev.readScore, Ev.writeScore])).flatten)) s1
  let s3 ← metrics.users.foldlM (fun (acc : Store × List Ev) p => do
    let e ← getEndDate p.1 granularity
    pure (p.2.foldl (fun st t => upsertScore st
        { org := owner, repo := none, user := some t.subject, start := p.1,
          stop := e, granularity := granularity, score := subjScore t }) acc.1,
      acc.2 ++ (p.2.map (fun _ => [Ev.readScore, Ev.writeScore])).flatten)) s2
  pure s3

/-- Process one uncached window: run the four reducers, combine them,
`create` the cache row, and record the entry under the window start. -/
def processWindow (db : DB) (owner : String) (repos : List String)
    (granularity : String)
    (acc : Store × List (ℤ × WindowMetrics) × List Ev) (w : ℤ × ℤ) :
    Store × List (ℤ × WindowMetrics) × List Ev :=
  let wm := computeWindow db owner repos (msOfDay w.1) (msOfDay w.2)
  (saveMetricsToCache acc.1 owner w.1 w.2 granularity wm,
   setZ acc.2.1 w.1 wm,
   acc.2.2 ++ [Ev.readReleases] ++ repos.map (fun _ => Ev.readPullRequests) ++
     repos.map (fun _ => Ev.readIssues) ++ repos.map (fun _ => Ev.readIssues) ++
     [Ev.writeScore])

/-- The body of `calculateUserDoraMetrics` after the `dates` array has been
materialized: resolve the repositories, look up the cache, compute and cache
the uncached windows, format, and persist. Returns the result (or thrown
error), the final store, and the storage events in issue order. -/
def doraPipeline (db : DB) (store : Store) (owner : String)
    (dates : List (ℤ × ℤ)) (granularity : String) (repo : Option String) :
    Except String DoraMetrics × Store × List Ev :=
  let repoEv : List Ev := match repo with | some _ => [] | none => [Ev.readRepos]
  let repos := match repo with
    | some r => [r]
    | none => listRepositories db owner
  let cached0 := getCachedMetrics store owner dates granularity
  let uncached := dates.filter (fun w => (getZ cached0 w.1).isNone)
  let res := uncached.foldl (processWindow db owner repos granularity)
    (store, cached0, repoEv ++ [Ev.readScore])
  let metrics := formatMetrics res.2.1
  match saveMetricsToDB res.1 owner metrics granularity with
  | .ok (st, evs) => (.ok metrics, st, res.2.2 ++ evs)
  | .error msg => (.error msg, res.1, res.2.2)

/-- `calculateUserDoraMetrics(owner, startDate, endDate, granularity, repo?)`
over an explicit score store. -/
def calculateUserDoraMetrics (db : DB) (store : Store) (owner : String)
    (startDate endDate : ℤ) (granularity : String) (repo : Option String) :
    Except String DoraMetrics × Store × List Ev :=
  doraPipeline db store owner (doraDates startDate endDate granularity) granularity repo

/-- Whether a required GraphQL string argument is JS-falsy
(absent or the empty string). -/
def falsyStr (x : Option String) : Bool :=
  match x with
  | none => true
  | some str => str == ""

/-- `resolvers.Query.dora`: connects to storage first, then validates the
required parameters, then runs the metrics calculation. The date arguments
are modelled already parsed to day numbers (`none` = absent). -/
def dora (db : DB) (store : Store) (owner : Option String)
    (startDate endDate : Option ℤ) (granularity : Option String)
    (repo : Option String) : Except String DoraMetrics × Store × List Ev :=
  if falsyStr owner || startDate.isNone || endDate.isNone || falsyStr granularity then
    (.error "owner, startDate, endDate, and granularity are required", store, [Ev.connect])
  else
    let r := calculateUserDoraMetrics db store (owner.getD "") (startDate.getD 0)
      (endDate.getD 0) (granularity.getD "") repo
    (r.1, r.2.1, Ev.connect :: r.2.2)


/-! ### Concrete scenario databases and window evaluations. -/

instance {ε α : Type} [DecidableEq ε] [DecidableEq α] : DecidableEq (Except ε α) := fun a b =>
  match a, b with
  | .ok x, .ok y =>
    if h : x = y then .isTrue (by rw [h]) else .isFalse (fun hc => by cases hc; exact h rfl)
  | .error x, .error y =>
    if h : x = y then .isTrue (by rw [h]) else .isFalse (fun hc => by cases hc; exact h rfl)
  | .ok _, .error _ => .isFalse (fun hc => by cases hc)
  | .error _, .ok _ => .isFalse (fun hc => by cases hc)

/-- One week window, days 0 to 6. -/
theorem dateRangeWeek_zero_six : dateRangeWeek 0 6 = [(0, 6)] := by
  unfold dateRangeWeek
  have h1 : weekStart 0 = 0 := by decide
  rw [h1, weekLoop_cons 6 0 (by decide)]
  norm_num
  rw [weekLoop_empty 6 7 (by decide)]

/-- The end-to-end scenario of C1: organization "acme", repository "svc",
one release by "bob", one merged PR by "bob" whose `createdAt` (the value the
source uses as `firstCommitTime`) is 2 hours (7 200 000 ms)
before `mergedAt`, and one issue by "bob" labeled "failure" closed 4 hours
(14 400 000 ms) after creation, all inside the week window of
days 0 to 6. -/
def dbC1 : DB :=
  { releases := [⟨"acme", "svc", "bob", 100⟩]
    prs := [⟨"acme", "svc", "bob", 100, 0, some 7200000⟩]
    issues := [⟨"acme", "svc", "bob", 100, ["failure"], 0, some 14400000⟩]
    repos := [("acme", "svc")] }

set_option maxRecDepth 40000 in
/-- C1 (code bug): evaluating `calculateUserDoraMetrics` on the end-to-end
scenario. Deployment frequency (1) and change failure rate (100) match the
claim, and the per-user, per-repo and organization tuples agree with each
other — but `leadTimeForChanges` is 7 200 000 instead of the
claimed 2, and `timeToRestoreService` is 14 400 000 instead of
the claimed 4, because the source divides only the start timestamp by
`1000*60*60` instead of the timestamp difference. -/
theorem claim_C1_end_to_end_eval :
    (calculateUserDoraMetrics dbC1 [] "acme" 0 6 "week" none).1 =
      .ok
        { users := [(0, [⟨"bob", 1, 7200000, 100, 14400000⟩])]
          orgs := [(0, ⟨some "acme", 1, 7200000, some 100, 14400000⟩)]
          repos := [(0, [⟨"svc", 1, 7200000, 100, 14400000⟩])] } ∧
    (7200000 : ℚ) ≠ 2 ∧ (14400000 : ℚ) ≠ 4 := by
  refine ⟨?_, by norm_num, by norm_num⟩
  unfold calculateUserDoraMetrics doraDates
  rw [if_pos rfl, dateRangeWeek_zero_six]
  with_unfolding_all rfl

/-- A database with a single merged pull request: `createdAt` = 0 ms and
`mergedAt` = 7 200 000 ms, i.e. merged exactly 2 hours after
the timestamp the source treats as the first commit. -/
def dbC2 : DB :=
  { releases := []
    prs := [⟨"acme", "svc", "bob", 100, 0, some 7200000⟩]
    issues := []
    repos := [("acme", "svc")] }

set_option maxRecDepth 40000 in
/-- C2 (code bug): the lead-time reducer does not compute
`merge − firstCommit` in hours. For the 2-hour PR it yields
7 200 000, because the source parenthesizes the conversion as
`mergedTime - firstCommitTime / (1000*60*60)`; the claimed formula gives 2. -/
theorem claim_C2_lead_time_formula_eval :
    (calculateLeadTimeForChanges dbC2 "acme" ["svc"] 0 518400000).orgLeadTime = 7200000 ∧
    sourceLeadTime 0 7200000 = 7200000 ∧
    ((7200000 : ℤ) - 0) / (1000 * 60 * 60) = 2 ∧
    (7200000 : ℚ) ≠ 2 :=
  ⟨by with_unfolding_all rfl, by with_unfolding_all rfl, by norm_num, by norm_num⟩

/-- C6 counterexample: with `owner` absent the call does fail with the
required-parameter error, but the storage connection is opened before the
validation check — the event log of the failed call is `[connect]`, not
empty. -/
theorem claim_C6_counterexample :
    (dora dbC1 [] none (some 0) (some 6) (some "week") none).1 =
      .error "owner, startDate, endDate, and granularity are required" ∧
    (dora dbC1 [] none (some 0) (some 6) (some "week") none).2.2 = [Ev.connect] :=
  ⟨rfl, rfl⟩

/-- C6 amended: if any required parameter is absent (or JS-falsy), the call
fails with the `MissingParameter` error, the score store is untouched and no
storage query is issued — but the storage connection is opened before the
validation check. -/
theorem claim_C6_amended_validation (db : DB) (store : Store)
    (owner : Option String) (startDate endDate : Option ℤ)
    (granularity : Option String) (repo : Option String)
    (h : (falsyStr owner || startDate.isNone || endDate.isNone ||
      falsyStr granularity) = true) :
    dora db store owner startDate endDate granularity repo =
      (.error "owner, startDate, endDate, and granularity are required", store,
        [Ev.connect]) := by
  unfold dora
  simp [h]

/-- Witness for the amended C6 at a concrete input. -/
theorem claim_C6_amended_validation_witness :
    (falsyStr (some "acme") || (Option.none : Option ℤ).isNone ||
      (some (6:ℤ)).isNone || falsyStr (some "week")) = true ∧
    dora dbC1 [] (some "acme") none (some 6) (some "week") none =
      (.error "owner, startDate, endDate, and granularity are required", [],
        [Ev.connect]) :=
  ⟨by decide,
   claim_C6_amended_validation dbC1 [] (some "acme") none (some 6) (some "week")
     none (by decide)⟩

/-- The C7 scenario: three releases in the window — two by "alice", one by
"bob" — and nothing else. -/
def dbC7 : DB :=
  { releases := [⟨"acme", "svc", "alice", 100⟩, ⟨"acme", "svc", "alice", 200⟩,
      ⟨"acme", "svc", "bob", 300⟩]
    prs := []
    issues := []
    repos := [("acme", "svc")] }

/-- First computation of the week window for `dbC7` on an empty store. -/
def runC7one : Except String DoraMetrics × Store × List Ev :=
  calculateUserDoraMetrics dbC7 [] "acme" 0 6 "week" (some "svc")

/-- Second computation of the same window on the store the first one left. -/
def runC7two : Except String DoraMetrics × Store × List Ev :=
  calculateUserDoraMetrics dbC7 runC7one.2.1 "acme" 0 6 "week" (some "svc")

set_option maxRecDepth 100000 in
/-- C7 counterexample: computing the same (owner, window, granularity) twice
does not return the same `MetricTuple`. The first call returns an
organization deploymentFrequency of 3; the second call's cache lookup, which
filters only on (org, start, granularity) and thus also matches the per-repo
and per-user rows, restores the last matching row — the per-user row of
"bob" — so the organization tuple comes back with deploymentFrequency 1. -/
theorem claim_C7_counterexample :
    runC7one.1 = .ok
      { users := [(0, [⟨"alice", 2, 0, 0, 0⟩, ⟨"bob", 1, 0, 0, 0⟩])]
        orgs := [(0, ⟨some "acme", 3, 0, none, 0⟩)]
        repos := [(0, [⟨"svc", 3, 0, 0, 0⟩])] } ∧
    runC7two.1 = .ok
      { users := [(0, [])]
        orgs := [(0, ⟨none, 1, 0, some 0, 0⟩)]
        repos := [(0, [])] } ∧
    (3 : ℚ) ≠ 1 := by
  refine ⟨?_, ?_, by norm_num⟩
  · unfold runC7one calculateUserDoraMetrics doraDates
    rw [if_pos rfl, dateRangeWeek_zero_six]
    with_unfolding_all rfl
  · unfold runC7two runC7one calculateUserDoraMetrics doraDates
    rw [if_pos rfl, dateRangeWeek_zero_six]
    with_unfolding_all rfl

set_option maxRecDepth 100000 in
/-- C7 amended: the persistence writes of `saveMetricsToDB` are
find-first-then-update-or-create upserts and the cache write is an insert
guarded by the preceding lookup, so after computing the same
(owner, window, granularity) twice the score store holds exactly one row per
key tuple — here the four keys (org-level, repo "svc", user "alice", user
"bob"), identical after both calls and with no duplicates. The returned
organization tuple, however, is not the same both times (see the
counterexample), because the cache lookup ignores the repo/user key fields. -/
theorem claim_C7_amended_upsert_rows :
    runC7two.2.1.map (fun r => (r.org, r.repo, r.user, r.start, r.granularity)) =
      [("acme", none, none, 0, "week"),
       ("acme", some "svc", none, 0, "week"),
       ("acme", none, some "alice", 0, "week"),
       ("acme", none, some "bob", 0, "week")] ∧
    (runC7two.2.1.map (fun r => (r.org, r.repo, r.user, r.start, r.granularity))).Nodup ∧
    runC7one.2.1.map (fun r => (r.org, r.repo, r.user, r.start, r.granularity)) =
      runC7two.2.1.map (fun r => (r.org, r.repo, r.user, r.start, r.granularity)) := by
  refine ⟨?_, ?_, ?_⟩
  · unfold runC7two runC7one calculateUserDoraMetrics doraDates
    rw [if_pos rfl, dateRangeWeek_zero_six]
    with_unfolding_all rfl
  · unfold runC7two runC7one calculateUserDoraMetrics doraDates
    rw [if_pos rfl, dateRangeWeek_zero_six]
    with_unfolding_all decide
  · unfold runC7two runC7one calculateUserDoraMetrics doraDates
    rw [if_pos rfl, dateRangeWeek_zero_six]
    with_unfolding_all rfl

/-! ### Claim C5: granularity validation. -/

theorem setZ_ne_nil {α : Type} (m : List (ℤ × α)) (k : ℤ) (v : α) : setZ m k v ≠ [] := by
  cases m with
  | nil => simp [setZ]
  | cons p ps =>
    unfold setZ
    split <;> simp

theorem foldl_processWindow_cached_ne_nil (db : DB) (owner : String)
    (repos : List String) (granularity : String) :
    ∀ (l : List (ℤ × ℤ)) (acc : Store × List (ℤ × WindowMetrics) × List Ev),
      acc.2.1 ≠ [] →
      (l.foldl (processWindow db owner repos granularity) acc).2.1 ≠ [] := by
  intro l
  induction l with
  | nil => intro acc h; exact h
  | cons w ws ih =>
    intro acc h
    rw [List.foldl_cons]
    exact ih _ (setZ_ne_nil _ _ _)

theorem foldl_processWindow_events_mono (db : DB) (owner : String)
    (repos : List String) (granularity : String) (x : Ev) :
    ∀ (l : List (ℤ × ℤ)) (acc : Store × List (ℤ × WindowMetrics) × List Ev),
      x ∈ acc.2.2 →
      x ∈ (l.foldl (processWindow db owner repos granularity) acc).2.2 := by
  intro l
  induction l with
  | nil => intro acc h; exact h
  | cons w ws ih =>
    intro acc h
    rw [List.foldl_cons]
    apply ih
    simp only [processWindow, List.mem_append]
    exact Or.inl (Or.inl (Or.inl (Or.inl (Or.inl h))))

theorem saveMetricsToDB_invalid (store : Store) (owner : String)
    (m : DoraMetrics) (g : String) (hd : g ≠ "day") (hw : g ≠ "week")
    (hm : g ≠ "month") (hne : m.orgs ≠ []) :
    saveMetricsToDB store owner m g = .error ("Invalid granularity: " ++ g) := by
  obtain ⟨us, orgs, rs⟩ := m
  rcases orgs with _ | ⟨p, ps⟩
  · exact absurd rfl hne
  · unfold saveMetricsToDB
    rw [List.foldlM_cons]
    have hge : getEndDate p.1 g = .error ("Invalid granularity: " ++ g) := by
      unfold getEndDate
      rw [if_neg hd, if_neg hw, if_neg hm]
    simp only [hge]
    rfl

/-- C5 counterexample: with the invalid granularity "year" and startDate
(day 5) after endDate (day 2) — so the fall-through day branch produces no
window — `calculateUserDoraMetrics` completes successfully: no
`InvalidGranularity` rejection happens at all, and the cache-lookup query
runs anyway. -/
theorem claim_C5_counterexample :
    (calculateUserDoraMetrics dbC1 [] "acme" 5 2 "year" (some "svc")).1 =
      .ok { users := [], orgs := [], repos := [] } ∧
    (calculateUserDoraMetrics dbC1 [] "acme" 5 2 "year" (some "svc")).2.2 =
      [Ev.readScore] := by
  constructor <;>
    (unfold calculateUserDoraMetrics doraDates
     rw [if_neg (by decide), if_neg (by decide),
       show dateRangeDay 5 2 = [] from dayLoop_empty 2 5 (by decide)]
     with_unfolding_all rfl)

/-- C5 amended: a granularity outside `{day, week, month}` is not rejected
before storage access: the bucketizer silently falls through to the day
branch, the cache lookup (and, per window, the activity reads and cache
writes) execute, and only the final persistence step fails, with
`Invalid granularity: <g>` — and when the day branch yields no window the
call does not fail at all (see the counterexample). -/
theorem claim_C5_amended_no_early_rejection (db : DB) (owner : String)
    (s e : ℤ) (g : String) (repo : Option String)
    (hd : g ≠ "day") (hw : g ≠ "week") (hm : g ≠ "month") (hse : s ≤ e) :
    (calculateUserDoraMetrics db [] owner s e g repo).1 =
      .error ("Invalid granularity: " ++ g) ∧
    Ev.readScore ∈ (calculateUserDoraMetrics db [] owner s e g repo).2.2 := by
  unfold calculateUserDoraMetrics doraDates
  rw [if_neg hw, if_neg hm,
    show dateRangeDay s e = (s, s) :: dayLoop e (s + 1) from dayLoop_cons e s hse]
  simp only [doraPipeline]
  have hcache : getCachedMetrics [] owner ((s, s) :: dayLoop e (s + 1)) g = [] := rfl
  rw [hcache]
  have hfilter : ((s, s) :: dayLoop e (s + 1)).filter
      (fun x => (getZ ([] : List (ℤ × WindowMetrics)) x.1).isNone) =
      (s, s) :: dayLoop e (s + 1) :=
    List.filter_eq_self.mpr (fun a _ => rfl)
  rw [hfilter]
  rw [List.foldl_cons]
  rw [saveMetricsToDB_invalid _ owner _ g hd hw hm ?hne]
  case hne =>
    intro hc
    exact foldl_processWindow_cached_ne_nil db owner _ g _ _ (setZ_ne_nil _ _ _)
      (List.map_eq_nil_iff.mp hc)
  refine ⟨rfl, ?_⟩
  show Ev.readScore ∈ _
  apply foldl_processWindow_events_mono
  simp [processWindow]

/-- Witness for the amended C5 at a concrete input. -/
theorem claim_C5_amended_no_early_rejection_witness :
    (calculateUserDoraMetrics dbC1 [] "acme" 0 0 "year" (some "svc")).1 =
      .error ("Invalid granularity: " ++ "year") ∧
    Ev.readScore ∈ (calculateUserDoraMetrics dbC1 [] "acme" 0 0 "year" (some "svc")).2.2 :=
  claim_C5_amended_no_early_rejection dbC1 "acme" 0 0 "year" (some "svc")
    (by decide) (by decide) (by decide) (by decide)


/-! ### Claim C8: division guards in the failure-rate reducer. -/

theorem mem_setR {α : Type} (k : String) (v : α) :
    ∀ (r : Obj α) (p : String × α), p ∈ setR r k v → p = (k, v) ∨ p ∈ r := by
  intro r
  induction r with
  | nil =>
    intro p hp
    unfold setR at hp
    rcases List.mem_cons.mp hp with rfl | hp
    · exact Or.inl rfl
    · simp at hp
  | cons q qs ih =>
    intro p hp
    unfold setR at hp
    by_cases h : q.1 == k
    · rw [if_pos h] at hp
      rcases List.mem_cons.mp hp with rfl | hp
      · exact Or.inl rfl
      · exact Or.inr (List.mem_cons_of_mem _ hp)
    · rw [if_neg h] at hp
      rcases List.mem_cons.mp hp with rfl | hp
      · exact Or.inr (List.mem_cons_self _ _)
      · rcases ih p hp with h1 | h1
        · exact Or.inl h1
        · exact Or.inr (List.mem_cons_of_mem _ h1)

theorem jsOr_getR_nonneg (r : Obj ℚ) (k : String) (h : ∀ p ∈ r, 0 < p.2) :
    0 ≤ jsOr (getR r k) 0 := by
  cases hx : getR r k with
  | none => exact le_refl 0
  | some v =>
    have hv : 0 < v := by
      unfold getR at hx
      cases hf : r.find? (fun p => p.1 == k) with
      | none => rw [hf] at hx; simp at hx
      | some p =>
        rw [hf] at hx
        have hx2 : p.2 = v := by simpa using hx
        have hmem := List.mem_of_find?_eq_some hf
        have := h p hmem
        rw [hx2] at this
        exact this
    show 0 ≤ jsOr (some v) 0
    simp only [jsOr]
    rw [if_neg (ne_of_gt hv)]
    exact le_of_lt hv

theorem allPos_incr1 (r : Obj ℚ) (k : String) (h : ∀ p ∈ r, 0 < p.2) :
    ∀ p ∈ incr r k 1, 0 < p.2 := by
  intro p hp
  rcases mem_setR _ _ _ _ hp with rfl | hp2
  · have := jsOr_getR_nonneg r k h
    show (0:ℚ) < jsOr (getR r k) 0 + 1
    linarith
  · exact h p hp2

/-- The invariant of the failure-rate accumulation: every recorded total is
positive. -/
def FailInv (acc : FailAcc) : Prop :=
  (∀ p ∈ acc.userTotal, 0 < p.2) ∧ (∀ p ∈ acc.repoTotal, 0 < p.2)

theorem failStepIssue_inv (repo : String) (acc : FailAcc) (i : Issue)
    (h : FailInv acc) : FailInv (failStepIssue repo acc i) := by
  unfold failStepIssue
  split
  · exact ⟨allPos_incr1 _ _ h.1, allPos_incr1 _ _ h.2⟩
  · exact ⟨allPos_incr1 _ _ h.1, allPos_incr1 _ _ h.2⟩

theorem failFold_inner_inv (repo : String) (l : List Issue) :
    ∀ acc : FailAcc, FailInv acc → FailInv (l.foldl (failStepIssue repo) acc) := by
  induction l with
  | nil => intro acc h; exact h
  | cons i is ih =>
    intro acc h
    rw [List.foldl_cons]
    exact ih _ (failStepIssue_inv repo acc i h)

theorem failFold_inner_orgTotal (repo : String) (l : List Issue) :
    ∀ acc : FailAcc,
      (l.foldl (failStepIssue repo) acc).orgTotal = acc.orgTotal + l.length := by
  induction l with
  | nil => intro acc; simp
  | cons i is ih =>
    intro acc
    rw [List.foldl_cons, ih]
    have : (failStepIssue repo acc i).orgTotal = acc.orgTotal + 1 := by
      unfold failStepIssue
      split <;> rfl
    rw [this]
    simp only [List.length_cons]
    push_cast
    ring

theorem failFold_outer_inv (db : DB) (owner : String) (s e : ℤ) (repos : List String) :
    ∀ acc : FailAcc, FailInv acc →
      FailInv (repos.foldl
        (fun a repo => (findIssues db owner repo s e).foldl (failStepIssue repo) a) acc) := by
  induction repos with
  | nil => intro acc h; exact h
  | cons r rs ih =>
    intro acc h
    rw [List.foldl_cons]
    exact ih _ (failFold_inner_inv r _ acc h)

theorem failFold_outer_orgTotal (db : DB) (owner : String) (s e : ℤ) (repos : List String) :
    ∀ acc : FailAcc,
      (repos.foldl
        (fun a repo => (findIssues db owner repo s e).foldl (failStepIssue repo) a) acc).orgTotal
        = acc.orgTotal + ((repos.map (fun r => (findIssues db owner r s e).length)).sum : ℕ) := by
  induction repos with
  | nil => intro acc; simp
  | cons r rs ih =>
    intro acc
    rw [List.foldl_cons, ih, failFold_inner_orgTotal]
    simp only [List.map_cons, List.sum_cons]
    push_cast
    ring

/-- C8 counterexample: for a window with zero issues, the organization-wide
failure rate is `(0 / 0) * 100`, i.e. JS `NaN` (`none` in the model) — the
organization-level division is not guarded. -/
theorem claim_C8_counterexample :
    (calculateChangeFailureRate ⟨[], [], [], []⟩ "acme" ["svc"] 0 100).orgFailureRate =
      none := rfl

/-- C8 amended: the per-user and per-repo failure rates are always defined —
they are computed only for subjects with at least one issue, whose totals are
positive (subjects with no issues are zero-filled later by `combineMetrics`)
— but the organization-wide rate is unguarded: it is `NaN` exactly when the
window contains no issue at all. -/
theorem claim_C8_org_rate_unguarded (db : DB) (owner : String)
    (repos : List String) (s e : ℤ) :
    (∀ p ∈ (calculateChangeFailureRate db owner repos s e).userFailureRates, p.2.isSome) ∧
    (∀ p ∈ (calculateChangeFailureRate db owner repos s e).repoFailureRates, p.2.isSome) ∧
    ((calculateChangeFailureRate db owner repos s e).orgFailureRate = none ↔
      ∀ repo ∈ repos, findIssues db owner repo s e = []) := by
  have hinv := failFold_outer_inv db owner s e repos ⟨[], [], 0, 0, [], []⟩
    ⟨by intro p hp; simp at hp, by intro p hp; simp at hp⟩
  have htot := failFold_outer_orgTotal db owner s e repos ⟨[], [], 0, 0, [], []⟩
  simp only [calculateChangeFailureRate]
  refine ⟨?_, ?_, ?_⟩
  · intro p hp
    obtain ⟨q, hq, rfl⟩ := List.mem_map.mp hp
    have hpos := hinv.1 q hq
    show ((jsDiv (jsOr (getR _ q.1) 0) q.2).map (· * 100)).isSome = true
    unfold jsDiv
    rw [if_neg (ne_of_gt hpos)]
    rfl
  · intro p hp
    obtain ⟨q, hq, rfl⟩ := List.mem_map.mp hp
    have hpos := hinv.2 q hq
    show ((jsDiv (jsOr (getR _ q.1) 0) q.2).map (· * 100)).isSome = true
    unfold jsDiv
    rw [if_neg (ne_of_gt hpos)]
    rfl
  · rw [Option.map_eq_none']
    unfold jsDiv
    constructor
    · intro h
      have h0 : (repos.foldl
          (fun a repo => (findIssues db owner repo s e).foldl (failStepIssue repo) a)
          ⟨[], [], 0, 0, [], []⟩).orgTotal = 0 := by
        by_contra hc
        rw [if_neg hc] at h
        simp at h
      rw [htot] at h0
      simp only [zero_add, Nat.cast_eq_zero] at h0
      intro repo hrepo
      have := List.sum_eq_zero_iff.mp h0
      have hz := this _ (List.mem_map_of_mem _ hrepo)
      exact List.eq_nil_of_length_eq_zero hz
    · intro h
      have hz : (repos.map (fun r => (findIssues db owner r s e).length)).sum = 0 := by
        apply List.sum_eq_zero_iff.mpr
        intro x hx
        obtain ⟨r, hr, rfl⟩ := List.mem_map.mp hx
        rw [h r hr]
        rfl
      rw [if_pos (by rw [htot, hz]; simp)]


/-! ### Record-key lemmas used for the subject-set claims. -/

theorem mem_keysR_setR {α : Type} (k : String) (v : α) :
    ∀ (r : Obj α) (x : String), x ∈ keysR (setR r k v) ↔ x = k ∨ x ∈ keysR r := by
  intro r
  induction r with
  | nil =>
    intro x
    simp [setR, keysR]
  | cons q qs ih =>
    intro x
    unfold setR
    by_cases h : q.1 == k
    · rw [if_pos h]
      have hqk : q.1 = k := by simpa using h
      simp [keysR, hqk]
    · rw [if_neg h]
      simp only [keysR, List.map_cons, List.mem_cons] at *
      rw [ih]
      tauto

theorem mem_keysR_incr (r : Obj ℚ) (k : String) (v : ℚ) (x : String) :
    x ∈ keysR (incr r k v) ↔ x = k ∨ x ∈ keysR r :=
  mem_keysR_setR k _ r x

theorem getR_eq_none_iff {α : Type} (r : Obj α) (k : String) :
    getR r k = none ↔ k ∉ keysR r := by
  simp only [getR, Option.map_eq_none', List.find?_eq_none, beq_iff_eq, keysR,
    List.mem_map]
  constructor
  · rintro h ⟨p, hp, hpk⟩
    exact h p hp hpk
  · intro h p hp hpk
    exact h ⟨p, hp, hpk⟩

theorem mem_dedupAux : ∀ (l seen : List String) (x : String),
    x ∈ dedupAux seen l ↔ x ∈ l ∧ x ∉ seen := by
  intro l
  induction l with
  | nil => intro seen x; simp [dedupAux]
  | cons k ks ih =>
    intro seen x
    unfold dedupAux
    by_cases h : k ∈ seen
    · rw [if_pos h, ih]
      simp only [List.mem_cons]
      constructor
      · rintro ⟨h1, h2⟩
        exact ⟨Or.inr h1, h2⟩
      · rintro ⟨h1 | h1, h2⟩
        · subst h1; exact absurd h h2
        · exact ⟨h1, h2⟩
    · rw [if_neg h]
      simp only [List.mem_cons, ih, List.mem_cons]
      constructor
      · rintro (rfl | ⟨h1, h2⟩)
        · exact ⟨Or.inl rfl, h⟩
        · refine ⟨Or.inr h1, fun hc => h2 (Or.inr hc)⟩
      · rintro ⟨rfl | h1, h2⟩
        · exact Or.inl rfl
        · by_cases hxk : x = k
          · exact Or.inl hxk
          · exact Or.inr ⟨h1, fun hc => by
              rcases hc with hc | hc
              · exact hxk hc
              · exact h2 hc⟩

theorem mem_dedupKeys (l : List String) (x : String) : x ∈ dedupKeys l ↔ x ∈ l := by
  unfold dedupKeys
  rw [mem_dedupAux]
  simp

/-! Fold lemmas for the deployment-frequency reducer. -/

theorem depFold_orgDeployment (l : List Release) :
    ∀ acc : DeploymentData,
      (l.foldl deploymentStep acc).orgDeployment = acc.orgDeployment + l.length := by
  induction l with
  | nil => intro acc; simp
  | cons r rs ih =>
    intro acc
    rw [List.foldl_cons, ih]
    show acc.orgDeployment + 1 + (rs.length : ℚ) = _
    simp only [List.length_cons]
    push_cast
    ring

theorem depFold_userKeys (l : List Release) :
    ∀ (acc : DeploymentData) (x : String),
      x ∈ keysR (l.foldl deploymentStep acc).userDeployments ↔
        x ∈ keysR acc.userDeployments ∨ ∃ rel ∈ l, rel.user = x := by
  induction l with
  | nil => intro acc x; simp
  | cons r rs ih =>
    intro acc x
    rw [List.foldl_cons, ih]
    show (x ∈ keysR (incr acc.userDeployments r.user 1) ∨ _) ↔ _
    rw [mem_keysR_incr]
    simp only [List.mem_cons]
    constructor
    · rintro ((rfl | h) | ⟨rel, hrel, hru⟩)
      · exact Or.inr ⟨r, Or.inl rfl, rfl⟩
      · exact Or.inl h
      · exact Or.inr ⟨rel, Or.inr hrel, hru⟩
    · rintro (h | ⟨rel, rfl | hrel, hru⟩)
      · exact Or.inl (Or.inr h)
      · exact Or.inl (Or.inl hru.symm)
      · exact Or.inr ⟨rel, hrel, hru⟩

theorem depFold_repoKeys (l : List Release) :
    ∀ (acc : DeploymentData) (x : String),
      x ∈ keysR (l.foldl deploymentStep acc).repoDeployments ↔
        x ∈ keysR acc.repoDeployments ∨ ∃ rel ∈ l, rel.repo = x := by
  induction l with
  | nil => intro acc x; simp
  | cons r rs ih =>
    intro acc x
    rw [List.foldl_cons, ih]
    show (x ∈ keysR (incr acc.repoDeployments r.repo 1) ∨ _) ↔ _
    rw [mem_keysR_incr]
    simp only [List.mem_cons]
    constructor
    · rintro ((rfl | h) | ⟨rel, hrel, hru⟩)
      · exact Or.inr ⟨r, Or.inl rfl, rfl⟩
      · exact Or.inl h
      · exact Or.inr ⟨rel, Or.inr hrel, hru⟩
    · rintro (h | ⟨rel, rfl | hrel, hru⟩)
      · exact Or.inl (Or.inr h)
      · exact Or.inl (Or.inl hru.symm)
      · exact Or.inr ⟨rel, hrel, hru⟩


/-! Fold lemmas for the key sets of the other three reducers. -/

theorem leadStepPR_userKeys (repo : String) (acc : LeadAcc) (pr : PullReq) (x : String) :
    x ∈ keysR (leadStepPR repo acc pr).userLeadTime ↔
      (pr.mergedAt.isSome ∧ pr.user = x) ∨ x ∈ keysR acc.userLeadTime := by
  unfold leadStepPR
  cases hm : pr.mergedAt with
  | none => simp
  | some m =>
    show x ∈ keysR (incr acc.userLeadTime pr.user _) ↔ _
    rw [mem_keysR_incr]
    simp [eq_comm]

theorem leadInner_userKeys (repo : String) (l : List PullReq) :
    ∀ (acc : LeadAcc) (x : String),
      x ∈ keysR (l.foldl (leadStepPR repo) acc).userLeadTime ↔
        x ∈ keysR acc.userLeadTime ∨ ∃ pr ∈ l, pr.mergedAt.isSome ∧ pr.user = x := by
  induction l with
  | nil => intro acc x; simp
  | cons pr prs ih =>
    intro acc x
    rw [List.foldl_cons, ih, leadStepPR_userKeys]
    simp only [List.mem_cons]
    constructor
    · rintro ((⟨h1, h2⟩ | h) | ⟨q, hq, h3⟩)
      · exact Or.inr ⟨pr, Or.inl rfl, h1, h2⟩
      · exact Or.inl h
      · exact Or.inr ⟨q, Or.inr hq, h3⟩
    · rintro (h | ⟨q, rfl | hq, h3⟩)
      · exact Or.inl (Or.inr h)
      · exact Or.inl (Or.inl h3)
      · exact Or.inr ⟨q, hq, h3⟩

theorem leadOuter_userKeys (db : DB) (owner : String) (s e : ℤ) (repos : List String) :
    ∀ (acc : LeadAcc) (x : String),
      x ∈ keysR (repos.foldl
        (fun a repo => (findPullRequests db owner repo s e).foldl (leadStepPR repo) a)
        acc).userLeadTime ↔
        x ∈ keysR acc.userLeadTime ∨
        ∃ rp ∈ repos, ∃ pr ∈ findPullRequests db owner rp s e,
          pr.mergedAt.isSome ∧ pr.user = x := by
  induction repos with
  | nil => intro acc x; simp
  | cons r rs ih =>
    intro acc x
    rw [List.foldl_cons, ih, leadInner_userKeys]
    simp only [List.mem_cons]
    constructor
    · rintro ((h | ⟨pr, hpr, h3⟩) | ⟨rp, hrp, h4⟩)
      · exact Or.inl h
      · exact Or.inr ⟨r, Or.inl rfl, pr, hpr, h3⟩
      · exact Or.inr ⟨rp, Or.inr hrp, h4⟩
    · rintro (h | ⟨rp, rfl | hrp, h4⟩)
      · exact Or.inl (Or.inl h)
      · exact Or.inl (Or.inr h4)
      · exact Or.inr ⟨rp, hrp, h4⟩

theorem keysR_calculateAverage (m c : Obj ℚ) : keysR (calculateAverage m c) = keysR m := by
  unfold calculateAverage keysR
  rw [List.map_map]
  rfl

theorem failStepIssue_userTotalKeys (repo : String) (acc : FailAcc) (i : Issue) (x : String) :
    x ∈ keysR (failStepIssue repo acc i).userTotal ↔
      i.user = x ∨ x ∈ keysR acc.userTotal := by
  unfold failStepIssue
  split
  · show x ∈ keysR (incr acc.userTotal i.user 1) ↔ _
    rw [mem_keysR_incr]
    simp [eq_comm]
  · show x ∈ keysR (incr acc.userTotal i.user 1) ↔ _
    rw [mem_keysR_incr]
    simp [eq_comm]

theorem failInner_userTotalKeys (repo : String) (l : List Issue) :
    ∀ (acc : FailAcc) (x : String),
      x ∈ keysR (l.foldl (failStepIssue repo) acc).userTotal ↔
        x ∈ keysR acc.userTotal ∨ ∃ i ∈ l, i.user = x := by
  induction l with
  | nil => intro acc x; simp
  | cons i is ih =>
    intro acc x
    rw [List.foldl_cons, ih, failStepIssue_userTotalKeys]
    simp only [List.mem_cons]
    constructor
    · rintro ((h | h) | ⟨q, hq, h3⟩)
      · exact Or.inr ⟨i, Or.inl rfl, h⟩
      · exact Or.inl h
      · exact Or.inr ⟨q, Or.inr hq, h3⟩
    · rintro (h | ⟨q, rfl | hq, h3⟩)
      · exact Or.inl (Or.inr h)
      · exact Or.inl (Or.inl h3)
      · exact Or.inr ⟨q, hq, h3⟩

theorem failOuter_userTotalKeys (db : DB) (owner : String) (s e : ℤ) (repos : List String) :
    ∀ (acc : FailAcc) (x : String),
      x ∈ keysR (repos.foldl
        (fun a repo => (findIssues db owner repo s e).foldl (failStepIssue repo) a)
        acc).userTotal ↔
        x ∈ keysR acc.userTotal ∨
        ∃ rp ∈ repos, ∃ i ∈ findIssues db owner rp s e, i.user = x := by
  induction repos with
  | nil => intro acc x; simp
  | cons r rs ih =>
    intro acc x
    rw [List.foldl_cons, ih, failInner_userTotalKeys]
    simp only [List.mem_cons]
    constructor
    · rintro ((h | ⟨i, hi, h3⟩) | ⟨rp, hrp, h4⟩)
      · exact Or.inl h
      · exact Or.inr ⟨r, Or.inl rfl, i, hi, h3⟩
      · exact Or.inr ⟨rp, Or.inr hrp, h4⟩
    · rintro (h | ⟨rp, rfl | hrp, h4⟩)
      · exact Or.inl (Or.inl h)
      · exact Or.inl (Or.inr h4)
      · exact Or.inr ⟨rp, hrp, h4⟩

theorem restoreStepIssue_userKeys (repo : String) (acc : RestoreAcc) (i : Issue) (x : String) :
    x ∈ keysR (restoreStepIssue repo acc i).userRestoreTime ↔
      (isFailureIssue i ∧ i.closedAt.isSome ∧ i.user = x) ∨
        x ∈ keysR acc.userRestoreTime := by
  unfold restoreStepIssue
  by_cases hf : isFailureIssue i
  · rw [if_pos hf]
    cases hc : i.closedAt with
    | none => simp [hf, hc]
    | some c =>
      show x ∈ keysR (incr acc.userRestoreTime i.user _) ↔ _
      rw [mem_keysR_incr]
      simp [hf, hc, eq_comm]
  · rw [if_neg hf]
    simp [hf]

theorem restoreInner_userKeys (repo : String) (l : List Issue) :
    ∀ (acc : RestoreAcc) (x : String),
      x ∈ keysR (l.foldl (restoreStepIssue repo) acc).userRestoreTime ↔
        x ∈ keysR acc.userRestoreTime ∨
        ∃ i ∈ l, isFailureIssue i ∧ i.closedAt.isSome ∧ i.user = x := by
  induction l with
  | nil => intro acc x; simp
  | cons i is ih =>
    intro acc x
    rw [List.foldl_cons, ih, restoreStepIssue_userKeys]
    simp only [List.mem_cons]
    constructor
    · rintro ((h | h) | ⟨q, hq, h3⟩)
      · exact Or.inr ⟨i, Or.inl rfl, h⟩
      · exact Or.inl h
      · exact Or.inr ⟨q, Or.inr hq, h3⟩
    · rintro (h | ⟨q, rfl | hq, h3⟩)
      · exact Or.inl (Or.inr h)
      · exact Or.inl (Or.inl h3)
      · exact Or.inr ⟨q, hq, h3⟩

theorem restoreOuter_userKeys (db : DB) (owner : String) (s e : ℤ) (repos : List String) :
    ∀ (acc : RestoreAcc) (x : String),
      x ∈ keysR (repos.foldl
        (fun a repo => (findIssues db owner repo s e).foldl (restoreStepIssue repo) a)
        acc).userRestoreTime ↔
        x ∈ keysR acc.userRestoreTime ∨
        ∃ rp ∈ repos, ∃ i ∈ findIssues db owner rp s e,
          isFailureIssue i ∧ i.closedAt.isSome ∧ i.user = x := by
  induction repos with
  | nil => intro acc x; simp
  | cons r rs ih =>
    intro acc x
    rw [List.foldl_cons, ih, restoreInner_userKeys]
    simp only [List.mem_cons]
    constructor
    · rintro ((h | ⟨i, hi, h3⟩) | ⟨rp, hrp, h4⟩)
      · exact Or.inl h
      · exact Or.inr ⟨r, Or.inl rfl, i, hi, h3⟩
      · exact Or.inr ⟨rp, Or.inr hrp, h4⟩
    · rintro (h | ⟨rp, rfl | hrp, h4⟩)
      · exact Or.inl (Or.inl h)
      · exact Or.inl (Or.inr h4)
      · exact Or.inr ⟨rp, hrp, h4⟩


/-! ### Claims C9 and C10: subject sets and repository filtering. -/

theorem keysR_map_pair {α β : Type} (m : Obj α) (g : String × α → β) :
    keysR (m.map (fun p => (p.1, g p))) = keysR m := by
  unfold keysR
  rw [List.map_map]
  rfl

set_option maxHeartbeats 1600000 in
/-- C9: the per-repo entries of a window are exactly the repositories with at
least one release in the window (a repository with only PRs or issues does
not appear); the per-user entries are the union of the users appearing in any
of the four reducers' outputs; and a listed user with no release in the
window has `deploymentFrequency` zero-filled. -/
theorem claim_C9_subject_sets (db : DB) (owner : String) (repos : List String) (s e : ℤ) :
    (∀ r : String,
      (∃ t ∈ (computeWindow db owner repos s e).repos, t.subject = r) ↔
        ∃ rel ∈ findReleases db owner s e, rel.repo = r) ∧
    (∀ u : String,
      (∃ t ∈ (computeWindow db owner repos s e).users, t.subject = u) ↔
        ((∃ rel ∈ findReleases db owner s e, rel.user = u) ∨
         (∃ rp ∈ repos, ∃ pr ∈ findPullRequests db owner rp s e,
            pr.mergedAt.isSome ∧ pr.user = u) ∨
         (∃ rp ∈ repos, ∃ i ∈ findIssues db owner rp s e, i.user = u) ∨
         (∃ rp ∈ repos, ∃ i ∈ findIssues db owner rp s e,
            isFailureIssue i ∧ i.closedAt.isSome ∧ i.user = u))) ∧
    (∀ t ∈ (computeWindow db owner repos s e).users,
      (¬ ∃ rel ∈ findReleases db owner s e, rel.user = t.subject) →
        t.deploymentFrequency = 0) := by
  have husers : ∀ u : String,
      u ∈ dedupKeys (keysR (calculateDeploymentFrequency db owner s e).userDeployments ++
        keysR (calculateLeadTimeForChanges db owner repos s e).userLeadTime ++
        keysR (calculateChangeFailureRate db owner repos s e).userFailureRates ++
        keysR (calculateTimeToRestoreService db owner repos s e).userRestoreTime) ↔
        ((∃ rel ∈ findReleases db owner s e, rel.user = u) ∨
         (∃ rp ∈ repos, ∃ pr ∈ findPullRequests db owner rp s e,
            pr.mergedAt.isSome ∧ pr.user = u) ∨
         (∃ rp ∈ repos, ∃ i ∈ findIssues db owner rp s e, i.user = u) ∨
         (∃ rp ∈ repos, ∃ i ∈ findIssues db owner rp s e,
            isFailureIssue i ∧ i.closedAt.isSome ∧ i.user = u)) := by
    intro u
    rw [mem_dedupKeys]
    simp only [List.mem_append]
    have h1 : u ∈ keysR (calculateDeploymentFrequency db owner s e).userDeployments ↔
        ∃ rel ∈ findReleases db owner s e, rel.user = u := by
      unfold calculateDeploymentFrequency
      rw [depFold_userKeys]
      simp [keysR]
    have h2 : u ∈ keysR (calculateLeadTimeForChanges db owner repos s e).userLeadTime ↔
        ∃ rp ∈ repos, ∃ pr ∈ findPullRequests db owner rp s e,
          pr.mergedAt.isSome ∧ pr.user = u := by
      show u ∈ keysR (calculateAverage _ _) ↔ _
      rw [keysR_calculateAverage, leadOuter_userKeys]
      simp [keysR]
    have h3 : u ∈ keysR (calculateChangeFailureRate db owner repos s e).userFailureRates ↔
        ∃ rp ∈ repos, ∃ i ∈ findIssues db owner rp s e, i.user = u := by
      show u ∈ keysR (List.map _ _) ↔ _
      rw [keysR_map_pair, failOuter_userTotalKeys]
      simp [keysR]
    have h4 : u ∈ keysR (calculateTimeToRestoreService db owner repos s e).userRestoreTime ↔
        ∃ rp ∈ repos, ∃ i ∈ findIssues db owner rp s e,
          isFailureIssue i ∧ i.closedAt.isSome ∧ i.user = u := by
      show u ∈ keysR (calculateAverage _ _) ↔ _
      rw [keysR_calculateAverage, restoreOuter_userKeys]
      simp [keysR]
    rw [h1, h2, h3, h4]
    simp only [or_assoc]
  simp only [computeWindow, combineMetrics]
  refine ⟨?_, ?_, ?_⟩
  · intro r
    simp only [List.mem_map]
    constructor
    · rintro ⟨t, ⟨rp, hrp, rfl⟩, hsub⟩
      have hrr : rp = r := hsub
      subst hrr
      unfold calculateDeploymentFrequency at hrp
      rw [depFold_repoKeys] at hrp
      simpa [keysR] using hrp
    · intro h
      have hk : r ∈ keysR (calculateDeploymentFrequency db owner s e).repoDeployments := by
        unfold calculateDeploymentFrequency
        rw [depFold_repoKeys]
        simp only [keysR, List.map_nil, List.not_mem_nil, false_or]
        exact h
      exact ⟨_, ⟨r, hk, rfl⟩, rfl⟩
  · intro u
    rw [← husers u]
    simp only [List.mem_map]
    constructor
    · rintro ⟨t, ⟨v, hv, rfl⟩, hsub⟩
      have hvu : v = u := hsub
      subst hvu
      exact hv
    · intro h
      exact ⟨_, ⟨u, h, rfl⟩, rfl⟩
  · intro t ht hnot
    obtain ⟨v, hv, rfl⟩ := List.mem_map.mp ht
    have hkeys : v ∉ keysR (calculateDeploymentFrequency db owner s e).userDeployments := by
      intro hk
      apply hnot
      unfold calculateDeploymentFrequency at hk
      rw [depFold_userKeys] at hk
      simpa [keysR] using hk
    have hget := (getR_eq_none_iff
      (calculateDeploymentFrequency db owner s e).userDeployments v).mpr hkeys
    show jsOr (getR (calculateDeploymentFrequency db owner s e).userDeployments v) 0 = 0
    rw [hget]
    rfl

/-- Witness for C9 at a concrete input. -/
theorem claim_C9_subject_sets_witness :
    (∀ r : String,
      (∃ t ∈ (computeWindow dbC1 "acme" ["svc"] 0 518400000).repos, t.subject = r) ↔
        ∃ rel ∈ findReleases dbC1 "acme" 0 518400000, rel.repo = r) ∧
    (∀ u : String,
      (∃ t ∈ (computeWindow dbC1 "acme" ["svc"] 0 518400000).users, t.subject = u) ↔
        ((∃ rel ∈ findReleases dbC1 "acme" 0 518400000, rel.user = u) ∨
         (∃ rp ∈ ["svc"], ∃ pr ∈ findPullRequests dbC1 "acme" rp 0 518400000,
            pr.mergedAt.isSome ∧ pr.user = u) ∨
         (∃ rp ∈ ["svc"], ∃ i ∈ findIssues dbC1 "acme" rp 0 518400000, i.user = u) ∨
         (∃ rp ∈ ["svc"], ∃ i ∈ findIssues dbC1 "acme" rp 0 518400000,
            isFailureIssue i ∧ i.closedAt.isSome ∧ i.user = u))) ∧
    (∀ t ∈ (computeWindow dbC1 "acme" ["svc"] 0 518400000).users,
      (¬ ∃ rel ∈ findReleases dbC1 "acme" 0 518400000, rel.user = t.subject) →
        t.deploymentFrequency = 0) :=
  claim_C9_subject_sets dbC1 "acme" ["svc"] 0 518400000


/-- Restriction of the activity tables to PRs and issues of the given
repositories (releases untouched). -/
def dbRestrict (db : DB) (repos : List String) : DB :=
  { db with
    prs := db.prs.filter (fun p => repos.contains p.repo)
    issues := db.issues.filter (fun i => repos.contains i.repo) }

theorem findPullRequests_restrict (db : DB) (repos : List String) (owner r : String)
    (s e : ℤ) (hr : r ∈ repos) :
    findPullRequests (dbRestrict db repos) owner r s e =
      findPullRequests db owner r s e := by
  unfold findPullRequests dbRestrict
  simp only
  rw [List.filter_filter]
  apply List.filter_congr
  intro p _
  by_cases h2 : p.repo == r
  · have hpr : p.repo = r := by simpa using h2
    have hc : repos.contains p.repo = true := by
      rw [hpr]
      exact List.elem_iff.mpr hr
    simp only [h2, hc]
    simp [hpr, hr]
  · simp [h2]

theorem findIssues_restrict (db : DB) (repos : List String) (owner r : String)
    (s e : ℤ) (hr : r ∈ repos) :
    findIssues (dbRestrict db repos) owner r s e = findIssues db owner r s e := by
  unfold findIssues dbRestrict
  simp only
  rw [List.filter_filter]
  apply List.filter_congr
  intro p _
  by_cases h2 : p.repo == r
  · have hpr : p.repo = r := by simpa using h2
    have hc : repos.contains p.repo = true := by
      rw [hpr]
      exact List.elem_iff.mpr hr
    simp only [h2, hc]
    simp [hpr, hr]
  · simp [h2]

theorem foldRepos_congr {γ δ : Type} (repos : List String) (g1 g2 : String → List γ)
    (step : String → δ → γ → δ) (h : ∀ r ∈ repos, g1 r = g2 r) :
    ∀ acc : δ, repos.foldl (fun a r => (g1 r).foldl (step r) a) acc =
      repos.foldl (fun a r => (g2 r).foldl (step r) a) acc := by
  induction repos with
  | nil => intro acc; rfl
  | cons r rs ih =>
    intro acc
    rw [List.foldl_cons, List.foldl_cons, h r (List.mem_cons_self _ _)]
    exact ih (fun x hx => h x (List.mem_cons_of_mem _ hx)) _

/-- Two releases in the window, in two different repositories of "acme". -/
def dbC10 : DB :=
  { releases := [⟨"acme", "svc", "bob", 100⟩, ⟨"acme", "other", "carol", 200⟩]
    prs := []
    issues := []
    repos := [("acme", "svc"), ("acme", "other")] }

/-- C10: the deployment-frequency reducer queries releases filtered only by
organization and window: the organization-level count equals the number of
all the organization's releases in the window, whatever the repository list
is; restricting the PR and issue tables to the given repositories changes
nothing for the other three reducers; and concretely, computing a window for
repository "svc" only still counts the release of repository "other". -/
theorem claim_C10_deployment_ignores_repo (db : DB) (owner : String)
    (repos : List String) (s e : ℤ) :
    ((computeWindow db owner repos s e).orgs.deploymentFrequency =
      ((findReleases db owner s e).length : ℚ)) ∧
    calculateLeadTimeForChanges db owner repos s e =
      calculateLeadTimeForChanges (dbRestrict db repos) owner repos s e ∧
    calculateChangeFailureRate db owner repos s e =
      calculateChangeFailureRate (dbRestrict db repos) owner repos s e ∧
    calculateTimeToRestoreService db owner repos s e =
      calculateTimeToRestoreService (dbRestrict db repos) owner repos s e ∧
    (computeWindow dbC10 "acme" ["svc"] 0 86400000).orgs.deploymentFrequency = 2 := by
  refine ⟨?_, ?_, ?_, ?_, ?_⟩
  · show (calculateDeploymentFrequency db owner s e).orgDeployment = _
    unfold calculateDeploymentFrequency
    rw [depFold_orgDeployment]
    simp
  · unfold calculateLeadTimeForChanges
    rw [foldRepos_congr repos _ _ leadStepPR
      (fun r hr => (findPullRequests_restrict db repos owner r s e hr).symm)]
  · unfold calculateChangeFailureRate
    rw [foldRepos_congr repos _ _ failStepIssue
      (fun r hr => (findIssues_restrict db repos owner r s e hr).symm)]
  · unfold calculateTimeToRestoreService
    rw [foldRepos_congr repos _ _ restoreStepIssue
      (fun r hr => (findIssues_restrict db repos owner r s e hr).symm)]
  · with_unfolding_all rfl

/-- Witness for C10 at a concrete input. -/
theorem claim_C10_deployment_ignores_repo_witness :
    ((computeWindow dbC10 "acme" ["svc"] 0 86400000).orgs.deploymentFrequency =
      ((findReleases dbC10 "acme" 0 86400000).length : ℚ)) ∧
    calculateLeadTimeForChanges dbC10 "acme" ["svc"] 0 86400000 =
      calculateLeadTimeForChanges (dbRestrict dbC10 ["svc"]) "acme" ["svc"] 0 86400000 ∧
    calculateChangeFailureRate dbC10 "acme" ["svc"] 0 86400000 =
      calculateChangeFailureRate (dbRestrict dbC10 ["svc"]) "acme" ["svc"] 0 86400000 ∧
    calculateTimeToRestoreService dbC10 "acme" ["svc"] 0 86400000 =
      calculateTimeToRestoreService (dbRestrict dbC10 ["svc"]) "acme" ["svc"] 0 86400000 ∧
    (computeWindow dbC10 "acme" ["svc"] 0 86400000).orgs.deploymentFrequency = 2 :=
  claim_C10_deployment_ignores_repo dbC10 "acme" ["svc"] 0 86400000


/-- Witness for the amended C8 at a concrete input. -/
theorem claim_C8_org_rate_unguarded_witness :
    (∀ p ∈ (calculateChangeFailureRate dbC1 "acme" ["svc"] 0 518400000).userFailureRates,
      p.2.isSome) ∧
    (∀ p ∈ (calculateChangeFailureRate dbC1 "acme" ["svc"] 0 518400000).repoFailureRates,
      p.2.isSome) ∧
    ((calculateChangeFailureRate dbC1 "acme" ["svc"] 0 518400000).orgFailureRate = none ↔
      ∀ repo ∈ ["svc"], findIssues dbC1 "acme" repo 0 518400000 = []) :=
  claim_C8_org_rate_unguarded dbC1 "acme" ["svc"] 0 518400000

end Dora
